import Mathlib

set_option maxRecDepth 4000000
set_option maxHeartbeats 1000000

/-!
Verification of the plan-normalization and validation engine of the
email-productivity backend (files `backend/agent/plan_norm.py`,
`backend/agent/crew_agents.py`, `backend/agent/task_schema.py`,
`backend/routers/agent_v2.py`).

The decoded values the Python code manipulates (results of `json.loads`,
`ast.literal_eval`, or already-decoded dicts) are modelled by the `Json`
inductive below.  Python `int` and `float` are kept distinct (`Json.int`
vs `Json.float`); floats are represented exactly as rationals, which is
faithful for every value this code ever constructs from the inputs the
theorems touch (no float arithmetic is performed anywhere in the core
beyond the identity coercion `float(...)`).

Objects are kept in Python-dict canonical form: unique keys, insertion
order.  The JSON/literal parsers below establish this invariant (duplicate
keys overwrite the value in place, as `json.loads` does), and every object
the modelled code builds has unique keys by construction.
-/

namespace PlanCore

/-- A decoded Python value (the result of `json.loads` / `ast.literal_eval`).
`int`/`float` mirror the two Python number types. -/
inductive Json where
  | null
  | bool (b : Bool)
  | int (n : Int)
  | float (q : Rat)
  | str (s : String)
  | arr (elems : List Json)
  | obj (entries : List (String × Json))

/-- Errors a run of the modelled Python code can raise. Constructors mirror
the exception classes that can escape the corresponding fragments. -/
inductive PyErr where
  | attrError      -- AttributeError (e.g. `.get` on a non-dict)
  | typeError      -- TypeError (unhashable key, non-iterable, bad index type)
  | keyError       -- KeyError (d[k] with missing k)
  | indexError     -- IndexError (l[0] on an empty list)
  | valueError     -- ValueError (e.g. float() on a bad string)
  | noSteps        -- ValueError("Could not normalize steps ...") in plan_norm
  | decodeError    -- json.JSONDecodeError / ast.literal_eval failure
  | validation     -- pydantic.ValidationError from a model constructor
deriving Repr, DecidableEq

/-- Python truthiness of a decoded value: `None`, `False`, `0`, `0.0`, `""`,
`[]` and `{}` are falsy, everything else truthy. -/
def Json.truthy : Json → Bool
  | .null => false
  | .bool b => b
  | .int n => n != 0
  | .float q => q != 0
  | .str s => s ≠ ""
  | .arr l => !l.isEmpty
  | .obj l => !l.isEmpty

/-- Lookup in a canonical-form object (unique keys): first match. -/
def objLookup (entries : List (String × Json)) (k : String) : Option Json :=
  match entries with
  | [] => none
  | (k', v) :: rest => if k' = k then some v else objLookup rest k

/-- Dict insertion: overwrite the value in place when the key exists,
append otherwise (Python dict assignment / duplicate-key JSON decoding). -/
def objInsert (entries : List (String × Json)) (k : String) (v : Json) :
    List (String × Json) :=
  match entries with
  | [] => [(k, v)]
  | (k', v') :: rest =>
      if k' = k then (k', v) :: rest else (k', v') :: objInsert rest k v

/-- Python's `d.get(k, default)` on a decoded value; `AttributeError` when the
receiver is not a dict. -/
def pyGetD (j : Json) (k : String) (default : Json) : Except PyErr Json :=
  match j with
  | .obj entries => .ok ((objLookup entries k).getD default)
  | _ => .error .attrError

/-- Python's `d[k]` on a decoded dict; `KeyError` when missing,
`TypeError` when indexing a non-dict with a string key. -/
def pyGetKey (j : Json) (k : String) : Except PyErr Json :=
  match j with
  | .obj entries =>
      match objLookup entries k with
      | some v => .ok v
      | none => .error .keyError
  | _ => .error .typeError

/-- Python's `d[k] = v` on a decoded dict (the modelled code only ever
assigns into dicts). -/
def pySetKey (j : Json) (k : String) (v : Json) : Json :=
  match j with
  | .obj entries => .obj (objInsert entries k v)
  | _ => j

/-- Python iteration `for x in v`: lists yield elements, strings yield
one-character strings, dicts yield their keys; other values raise
`TypeError`. -/
def pyIter (j : Json) : Except PyErr (List Json) :=
  match j with
  | .arr l => .ok l
  | .str s => .ok (s.toList.map (fun c => .str (String.mk [c])))
  | .obj entries => .ok (entries.map (fun p => .str p.1))
  | _ => .error .typeError

/-- Is the value usable as a dict key / set element (hashable)? Lists and
dicts are unhashable in Python. -/
def Json.hashable : Json → Bool
  | .arr _ => false
  | .obj _ => false
  | _ => true

/-- The comparison key of a hashable value: Python `==` identifies `True`
with `1`, `1` with `1.0`, and so on, so booleans and both number types
share one rational key; strings and `None` are their own classes; the
unhashable values have no key. -/
def pyKey : Json → Option (Rat ⊕ String ⊕ Unit)
  | .null => some (.inr (.inr ()))
  | .bool b => some (.inl (if b then 1 else 0))
  | .int n => some (.inl n)
  | .float q => some (.inl q)
  | .str s => some (.inr (.inl s))
  | .arr _ => none
  | .obj _ => none

/-- Python `==` restricted to hashable values: equality of comparison
keys. Unhashable values never reach this comparison in the modelled code
(a `TypeError` is raised first), so they compare unequal here. -/
def pyEqH (a b : Json) : Bool :=
  match pyKey a, pyKey b with
  | some x, some y => x = y
  | _, _ => false

/-- Membership `x in l` over an iterated list with Python equality. -/
def pyMem (x : Json) (l : List Json) : Bool :=
  l.any (fun y => pyEqH x y)

/-- Effectful map over a list, the shape of every `[f(x) for x in l]`
comprehension and sequential `for` loop below: stops at the first error. -/
def mapE (f : α → Except PyErr β) : List α → Except PyErr (List β)
  | [] => .ok []
  | a :: as => do
      let b ← f a
      let bs ← mapE f as
      pure (b :: bs)

/-! ### Character and string helpers (ASCII fragment of the Python built-ins) -/

/-- The whitespace class of Python's `str.strip()` and of `\s` in `re`
(ASCII fragment): space, tab, newline, carriage return, form feed,
vertical tab. -/
def isPyWs (c : Char) : Bool :=
  c == ' ' || c == '\t' || c == '\n' || c == '\r' ||
  c == Char.ofNat 12 || c == Char.ofNat 11

/-- Word characters for the `\b` boundary of `re` (ASCII fragment of `\w`). -/
def isWordChar (c : Char) : Bool :=
  c.isAlpha || c.isDigit || c == '_'

/-- ASCII lowering, the fragment of `str.lower()` the core ever relies on. -/
def asciiLowerChar (c : Char) : Char :=
  if 'A' ≤ c && c ≤ 'Z' then Char.ofNat (c.toNat + 32) else c

def asciiLower (s : String) : String :=
  String.mk (s.toList.map asciiLowerChar)

def dropLeadingWs : List Char → List Char
  | [] => []
  | c :: cs => if isPyWs c then dropLeadingWs cs else c :: cs

/-- Python's `str.strip()`. -/
def pyStrip (s : String) : String :=
  String.mk ((dropLeadingWs (dropLeadingWs s.toList.reverse).reverse))

/-- Does `cs` start with `pre`? -/
def startsWithList : List Char → List Char → Bool
  | [], _ => true
  | _ :: _, [] => false
  | p :: ps, c :: cs => p == c && startsWithList ps cs

/-- Substring containment, Python's `needle in haystack` on strings. -/
def containsList (needle : List Char) : List Char → Bool
  | [] => needle.isEmpty
  | c :: cs => startsWithList needle (c :: cs) || containsList needle cs

def containsSub (hay needle : String) : Bool :=
  containsList needle.toList hay.toList

/-! ### Word-boundary regex searches

Each pattern of `plan_norm.py` is an alternation of literal words wrapped in
`\b ... \b`; a search succeeds iff some alternative occurs in the text with a
non-word character (or the text edge) on both sides.  `ATTACH_QA_PAT` is the
one two-part pattern (`\b(w1...).*(w2...)\b` without DOTALL): its `.*` region
must not cross a newline, the boundary applies before the first group and
after the second only. -/

/-- Is the word `w` at the head of `cs`, with a word boundary after it?
The words searched all begin and end with word characters, so the boundary
conditions are as coded. -/
def wordHereB (w : List Char) (cs : List Char) : Bool :=
  startsWithList w cs &&
    (match cs.drop w.length with
     | [] => true
     | c :: _ => !isWordChar c)

/-- Scan for any of the words `ws`, each bounded by `\b` on both sides.
`prevWord` records whether the previous character was a word character. -/
def searchWordsB (ws : List (List Char)) : List Char → Bool → Bool
  | [], _ => false
  | c :: cs, prevWord =>
      (!prevWord && ws.any (fun w => wordHereB w (c :: cs))) ||
      searchWordsB ws cs (isWordChar c)

/-- After a first-group match, scan (without crossing a newline) for any of
the second-group words followed by a word boundary; the second group has no
leading boundary requirement in the source pattern. -/
def searchSecondNoNl (ws : List (List Char)) : List Char → Bool
  | [] => false
  | c :: cs =>
      ws.any (fun w => wordHereB w (c :: cs)) ||
      (c != '\n' && searchSecondNoNl ws cs)

/-- Two-part search for `\b(ws1).*(ws2)\b` (no DOTALL): some `w1` with a
boundary before it, then on the same line (for the gap) some later `w2` with
a boundary after it. -/
def searchTwoPart (ws1 ws2 : List (List Char)) : List Char → Bool → Bool
  | [], _ => false
  | c :: cs, prevWord =>
      (!prevWord &&
        ws1.any (fun w =>
          startsWithList w (c :: cs) && searchSecondNoNl ws2 ((c :: cs).drop w.length))) ||
      searchTwoPart ws1 ws2 cs (isWordChar c)

/-- SUMMARY_PAT: `\bsummariz(e|ing|ation)\b`. -/
def summaryMatch (s : String) : Bool :=
  searchWordsB ["summarize".toList, "summarizing".toList, "summarization".toList]
    s.toList false

/-- TASK_PAT: `\b(task|action item|actionable)\b`. -/
def taskPatMatch (s : String) : Bool :=
  searchWordsB ["task".toList, "action item".toList, "actionable".toList]
    s.toList false

/-- MEETING_PAT: `\b(meeting|schedule|propose|suggest)\b`. -/
def meetingMatch (s : String) : Bool :=
  searchWordsB ["meeting".toList, "schedule".toList, "propose".toList, "suggest".toList]
    s.toList false

/-- TRANSLATE_PAT: `\btranslat(e|ion)\b`. -/
def translateMatch (s : String) : Bool :=
  searchWordsB ["translate".toList, "translation".toList] s.toList false

/-- CLASSIFY_PAT: `\bclassif(y|ication)\b`. -/
def classifyMatch (s : String) : Bool :=
  searchWordsB ["classify".toList, "classification".toList] s.toList false

/-- ATTACH_QA_PAT: `\b(attachment|file|document).*(question|query|ask)\b`. -/
def attachQaMatch (s : String) : Bool :=
  searchTwoPart ["attachment".toList, "file".toList, "document".toList]
    ["question".toList, "query".toList, "ask".toList] s.toList false

/-! ### The regex transformations of `plan_norm.py` and `crew_agents.py` -/

/-- Case-insensitive literal-prefix test (`w` given in lowercase). -/
def startsWithListCI : List Char → List Char → Bool
  | [], _ => true
  | _ :: _, [] => false
  | p :: ps, c :: cs => p == asciiLowerChar c && startsWithListCI ps cs

/-- Split the content before the first closing fence from the rest:
`some g` when a `` ``` `` occurs, `g` the characters before it. -/
def beforeClose : List Char → Option (List Char)
  | [] => none
  | c :: cs =>
      if startsWithList "```".toList (c :: cs) then some []
      else (beforeClose cs).map (fun g => c :: g)

/-- Search of `CODE_FENCE_REGEX = ```(?:json)?(.*?)``` ` (DOTALL,
IGNORECASE): earliest opening fence from which a closing fence is
reachable; the optional `json` tag (any case) is consumed greedily, which
never changes whether a close is reachable since its letters are not
backticks. Returns group 1. -/
def fenceSearch : List Char → Option (List Char)
  | [] => none
  | c :: cs =>
      if startsWithList "```".toList (c :: cs) then
        let rest := (c :: cs).drop 3
        let rest2 := if startsWithListCI "json".toList rest then rest.drop 4 else rest
        match beforeClose rest2 with
        | some g => some g
        | none => fenceSearch cs
      else fenceSearch cs

/-- `extract_json_block`: interior of the first fenced block, stripped;
the stripped original text when there is no fenced block. -/
def extract_json_block (text : String) : String :=
  match fenceSearch text.toList with
  | some g => pyStrip (String.mk g)
  | none => pyStrip text

/-- Lookahead of the trailing-comma cleanup: is the position followed by
optional whitespace and then a closing brace or bracket? -/
def followedByWsBracket : List Char → Bool
  | [] => false
  | c :: cs => if isPyWs c then followedByWsBracket cs else c == '}' || c == ']'

/-- The `re.sub(r",(\s*[}\]])", r"\1", ...)` cleanup of `try_json_load`:
delete every comma standing directly before (whitespace and) a closing
brace or bracket. Deleting a comma never changes another comma's
lookahead, so the per-comma rule coincides with the left-to-right
non-overlapping substitution. -/
def rmTrailCommas : List Char → List Char
  | [] => []
  | c :: cs =>
      if c == ',' && followedByWsBracket cs then rmTrailCommas cs
      else c :: rmTrailCommas cs

/-- Match of `^\s*email\s*:\s*` (IGNORECASE) at the start; returns the
remainder when it matches. The character classes and literals are
disjoint, so greedy matching is deterministic. -/
def dropEmailColon (cs : List Char) : Option (List Char) :=
  let a := dropLeadingWs cs
  if startsWithListCI "email".toList a then
    match dropLeadingWs (a.drop 5) with
    | ':' :: r => some (dropLeadingWs r)
    | _ => none
  else none

/-- Match of `^\s*email\s*content\s*:\s*` (IGNORECASE) at the start. -/
def dropEmailContentColon (cs : List Char) : Option (List Char) :=
  let a := dropLeadingWs cs
  if startsWithListCI "email".toList a then
    let b := dropLeadingWs (a.drop 5)
    if startsWithListCI "content".toList b then
      match dropLeadingWs (b.drop 7) with
      | ':' :: r => some (dropLeadingWs r)
      | _ => none
    else none
  else none

/-- `_clean_email_input`: strip, remove a leading `email:` prefix, then a
leading `email content:` prefix (the two subs run in sequence), strip. -/
def _clean_email_input (val : String) : String :=
  let c1 := (pyStrip val).toList
  let c2 := (dropEmailColon c1).getD c1
  let c3 := (dropEmailContentColon c2).getD c2
  pyStrip (String.mk c3)

/-- Maximal run of `\s` characters and the remainder. -/
def splitWsAll : List Char → List Char × List Char
  | [] => ([], [])
  | c :: cs =>
      if isPyWs c then
        let (ws, r) := splitWsAll cs
        (c :: ws, r)
      else ([], c :: cs)

/-- First substitution of `_strip_markdown_fences`:
`re.sub(r'^```(?:json)?\s*\n?', '', text, flags=re.MULTILINE)` — at every
line start, delete an opening fence, an optional lowercase `json` tag and
the whitespace run after it (`\s*` is greedy and `\s` includes newlines,
so `\n?` adds nothing). `atStart` tracks whether the current position
follows a newline in the original text. -/
def stripFenceOpen (fuel : Nat) : List Char → Bool → List Char
  | [], _ => []
  | c :: cs, atStart =>
      match fuel with
      | 0 => c :: cs
      | fuel + 1 =>
          if atStart && startsWithList "```".toList (c :: cs) then
            let r := (c :: cs).drop 3
            let r2 := if startsWithList "json".toList r then r.drop 4 else r
            let (ws, rest) := splitWsAll r2
            stripFenceOpen fuel rest (ws.getLast? == some '\n')
          else c :: stripFenceOpen fuel cs (c == '\n')

/-- Split a whitespace run at its last newline: `ws = before ++ '\n' :: after`. -/
def lastNlSplit (ws : List Char) : Option (List Char × List Char) :=
  match ws with
  | [] => none
  | c :: cs =>
      match lastNlSplit cs with
      | some (b, a) => some (c :: b, a)
      | none => if c == '\n' then some ([], cs) else none

/-- One attempted match of `\n?\s*```\s*$` (MULTILINE) at the current
position: a whitespace run, a closing fence, then whitespace up to the end
of the text or up to a newline (the `$` position, not consumed). Returns
the remainder from the `$` position when it matches. -/
def closeFenceAt (cs : List Char) : Option (List Char) :=
  let (_, r1) := splitWsAll cs
  if startsWithList "```".toList r1 then
    let r2 := r1.drop 3
    let (ws2, r3) := splitWsAll r2
    if r3.isEmpty then some []
    else match lastNlSplit ws2 with
      | some (_, after) => some ('\n' :: (after ++ r3))
      | none => none
  else none

/-- Second substitution of `_strip_markdown_fences`: delete every closing
fence standing at the end of a line, leftmost first, resuming after each
deletion. -/
def stripFenceClose (fuel : Nat) : List Char → List Char
  | [] => []
  | c :: cs =>
      match fuel with
      | 0 => c :: cs
      | fuel + 1 =>
          match closeFenceAt (c :: cs) with
          | some rest => stripFenceClose fuel rest
          | none => c :: stripFenceClose fuel cs

/-- `_strip_markdown_fences` of `crew_agents.py`. -/
def _strip_markdown_fences (text : String) : String :=
  let t1 := (pyStrip text).toList
  let t2 := stripFenceOpen (t1.length + 1) t1 true
  let t3 := stripFenceClose (t2.length + 1) t2
  pyStrip (String.mk t3)

/-! ### Python `str()` / `repr()` and `json.dumps` (the fragments reached) -/

/-- Rendering of a Python float. Exact for the integral floats the verified
scenarios contain; the non-integral branch is a placeholder never reached
by any theorem below (Python would print a shortest round-trip decimal). -/
def floatRepr (q : Rat) : String :=
  if q.den = 1 then toString q.num ++ ".0"
  else toString q.num ++ "/" ++ toString q.den

mutual
/-- Python `repr` of a decoded value (reached via `str()` on containers). -/
def pyRepr : Json → String
  | .null => "None"
  | .bool b => if b then "True" else "False"
  | .int n => toString n
  | .float q => floatRepr q
  | .str s => "\x27" ++ s ++ "\x27"
  | .arr l => "[" ++ pyReprList l ++ "]"
  | .obj l => "\x7b" ++ pyReprEntries l ++ "\x7d"
def pyReprList : List Json → String
  | [] => ""
  | [x] => pyRepr x
  | x :: y :: rest => pyRepr x ++ ", " ++ pyReprList (y :: rest)
def pyReprEntries : List (String × Json) → String
  | [] => ""
  | [(k, v)] => "\x27" ++ k ++ "\x27: " ++ pyRepr v
  | (k, v) :: e :: rest =>
      "\x27" ++ k ++ "\x27: " ++ pyRepr v ++ ", " ++ pyReprEntries (e :: rest)
end

/-- Python `str()` of a decoded value. -/
def pyStr : Json → String
  | .str s => s
  | v => pyRepr v

/-- Hexadecimal digit. -/
def hexDigit (n : Nat) : Char :=
  if n < 10 then Char.ofNat ('0'.toNat + n) else Char.ofNat ('a'.toNat + n - 10)

/-- Four-digit lowercase hex, as in `\uXXXX` escapes produced by
`json.dumps` with `ensure_ascii=True`. -/
def hex4 (n : Nat) : String :=
  String.mk [hexDigit (n / 4096 % 16), hexDigit (n / 256 % 16),
             hexDigit (n / 16 % 16), hexDigit (n % 16)]

/-- `json.dumps` escaping of one character (`ensure_ascii=True`). -/
def dumpsChar (c : Char) : String :=
  if c == '"' then "\\\""
  else if c == '\\' then "\\\\"
  else if c == '\n' then "\\n"
  else if c == '\t' then "\\t"
  else if c == '\r' then "\\r"
  else if c == Char.ofNat 8 then "\\b"
  else if c == Char.ofNat 12 then "\\f"
  else if c.toNat < 32 || c.toNat > 126 then
    if c.toNat < 65536 then "\\u" ++ hex4 c.toNat
    else
      let v := c.toNat - 65536
      "\\u" ++ hex4 (55296 + v / 1024) ++ "\\u" ++ hex4 (56320 + v % 1024)
  else String.mk [c]

def dumpsString (s : String) : String :=
  "\"" ++ String.join (s.toList.map dumpsChar) ++ "\""

mutual
/-- `json.dumps` with the default separators `", "` and `": "`. -/
def jsonDumps : Json → String
  | .null => "null"
  | .bool b => if b then "true" else "false"
  | .int n => toString n
  | .float q => floatRepr q
  | .str s => dumpsString s
  | .arr l => "[" ++ jsonDumpsList l ++ "]"
  | .obj l => "\x7b" ++ jsonDumpsEntries l ++ "\x7d"
def jsonDumpsList : List Json → String
  | [] => ""
  | [x] => jsonDumps x
  | x :: y :: rest => jsonDumps x ++ ", " ++ jsonDumpsList (y :: rest)
def jsonDumpsEntries : List (String × Json) → String
  | [] => ""
  | [(k, v)] => dumpsString k ++ ": " ++ jsonDumps v
  | (k, v) :: e :: rest =>
      dumpsString k ++ ": " ++ jsonDumps v ++ ", " ++ jsonDumpsEntries (e :: rest)
end

/-! ### A model of `json.loads`

Total via a fuel argument (one unit per parser call, `2·length + 8` is
ample). Faithful to the strict decoder on everything the theorems touch:
JSON whitespace, `true`/`false`/`null`, numbers (ints kept as ints, any
fraction or exponent producing a float, no leading zeros), strings with the
eight escapes and `\uXXXX` (surrogate pairs combined; a lone surrogate,
which Python would keep, is replaced by U+FFFD since a `Char` cannot hold
it), arrays and objects with duplicate keys overwriting in place.
`NaN`/`Infinity` are not modelled (no rational value). -/

def isJsonWs (c : Char) : Bool :=
  c == ' ' || c == '\t' || c == '\n' || c == '\r'

def skipJsonWs : List Char → List Char
  | [] => []
  | c :: cs => if isJsonWs c then skipJsonWs cs else c :: cs

def isDigitChar (c : Char) : Bool := '0' ≤ c && c ≤ '9'

def takeDigitsL : List Char → List Char × List Char
  | [] => ([], [])
  | c :: cs =>
      if isDigitChar c then
        let (ds, r) := takeDigitsL cs
        (c :: ds, r)
      else ([], c :: cs)

def digitsVal (ds : List Char) : Nat :=
  ds.foldl (fun acc c => acc * 10 + (c.toNat - '0'.toNat)) 0

def hexVal (c : Char) : Option Nat :=
  let n := c.toNat
  if 48 ≤ n ∧ n ≤ 57 then some (n - 48)
  else if 97 ≤ n ∧ n ≤ 102 then some (n - 87)
  else if 65 ≤ n ∧ n ≤ 70 then some (n - 55)
  else none

def hex4Val (a b c d : Char) : Option Nat := do
  let va ← hexVal a
  let vb ← hexVal b
  let vc ← hexVal c
  let vd ← hexVal d
  return ((va * 16 + vb) * 16 + vc) * 16 + vd

/-- Character for a decoded `\uXXXX` code unit that is not part of a pair.
Lone surrogates become U+FFFD (modelling boundary, see above). -/
def codeUnitChar (n : Nat) : Char :=
  if h : n.isValidChar then Char.ofNatAux n h else Char.ofNat 65533

/-- String body after the opening quote (strict mode: unescaped control
characters are rejected). Structural on a fuel counter (one unit per
consumed character) so that it reduces definitionally. -/
def parseJStr (fuel : Nat) (acc : List Char) (cs : List Char) :
    Option (String × List Char) :=
  match fuel with
  | 0 => none
  | fuel + 1 =>
    match cs with
    | [] => none
    | '"' :: rest => some (String.mk acc.reverse, rest)
    | '\\' :: esc =>
        match esc with
        | 'u' :: a :: b :: c :: d :: rest =>
            match hex4Val a b c d with
            | none => none
            | some n =>
                if 55296 ≤ n && n ≤ 56319 then
                  match rest with
                  | '\\' :: 'u' :: a2 :: b2 :: c2 :: d2 :: rest2 =>
                      match hex4Val a2 b2 c2 d2 with
                      | some m =>
                          if 56320 ≤ m && m ≤ 57343 then
                            parseJStr fuel
                              (codeUnitChar (65536 + (n - 55296) * 1024 + (m - 56320)) :: acc)
                              rest2
                          else parseJStr fuel (codeUnitChar m :: codeUnitChar n :: acc) rest2
                      | none => none
                  | other => parseJStr fuel (codeUnitChar n :: acc) other
                else parseJStr fuel (codeUnitChar n :: acc) rest
        | '"' :: rest => parseJStr fuel ('"' :: acc) rest
        | '\\' :: rest => parseJStr fuel ('\\' :: acc) rest
        | '/' :: rest => parseJStr fuel ('/' :: acc) rest
        | 'b' :: rest => parseJStr fuel (Char.ofNat 8 :: acc) rest
        | 'f' :: rest => parseJStr fuel (Char.ofNat 12 :: acc) rest
        | 'n' :: rest => parseJStr fuel ('\n' :: acc) rest
        | 'r' :: rest => parseJStr fuel ('\r' :: acc) rest
        | 't' :: rest => parseJStr fuel ('\t' :: acc) rest
        | _ => none
    | c :: rest =>
        if c.toNat < 32 then none else parseJStr fuel (c :: acc) rest

/-- JSON number: optional minus, integer part without leading zeros,
optional fraction, optional exponent. Ints stay ints; any fraction or
exponent makes a float (as `json.loads` does). -/
def parseJNum (cs : List Char) : Option (Json × List Char) :=
  let neg : Bool := match cs with
    | '-' :: _ => true
    | _ => false
  let cs1 := if neg then cs.drop 1 else cs
  let (intDs, cs2) := takeDigitsL cs1
  if intDs.isEmpty then none
  else if intDs.length > 1 && intDs.headD '0' == '0' then none
  else
    let (fracDs, cs3, hasFrac) := match cs2 with
      | '.' :: r =>
          let (ds, r') := takeDigitsL r
          (ds, r', true)
      | _ => ([], cs2, false)
    if hasFrac && fracDs.isEmpty then none
    else
      let expPart : Option (Bool × List Char × List Char) := match cs3 with
        | 'e' :: r | 'E' :: r =>
            let (esgn, r1) := match r with
              | '+' :: r' => (false, r')
              | '-' :: r' => (true, r')
              | _ => (false, r)
            let (eds, r2) := takeDigitsL r1
            if eds.isEmpty then none else some (esgn, eds, r2)
        | _ => none
      let hasExp := (match cs3 with
        | 'e' :: _ | 'E' :: _ => true
        | _ => false)
      match expPart, hasExp with
      | none, true => none
      | none, false =>
          let m : Int := (if neg then -1 else 1) * (digitsVal (intDs ++ fracDs) : Int)
          if hasFrac then
            some (.float ((m : Rat) / ((10 : Rat) ^ fracDs.length)), cs3)
          else some (.int m, cs3)
      | some (esgn, eds, r2), _ =>
          let m : Int := (if neg then -1 else 1) * (digitsVal (intDs ++ fracDs) : Int)
          let base : Rat := (m : Rat) / ((10 : Rat) ^ fracDs.length)
          let e : Nat := digitsVal eds
          let v : Rat := if esgn then base / ((10 : Rat) ^ e) else base * ((10 : Rat) ^ e)
          some (.float v, r2)

mutual
def parseJVal (fuel : Nat) (cs : List Char) : Option (Json × List Char) :=
  match fuel with
  | 0 => none
  | fuel + 1 =>
      match skipJsonWs cs with
      | 'n' :: 'u' :: 'l' :: 'l' :: r => some (.null, r)
      | 't' :: 'r' :: 'u' :: 'e' :: r => some (.bool true, r)
      | 'f' :: 'a' :: 'l' :: 's' :: 'e' :: r => some (.bool false, r)
      | '"' :: r =>
          match parseJStr (r.length + 1) [] r with
          | some (s, r') => some (.str s, r')
          | none => none
      | '[' :: r =>
          (match skipJsonWs r with
           | ']' :: r' => some (.arr [], r')
           | r' =>
               match parseJElems fuel r' with
               | some (es, r'') => some (.arr es, r'')
               | none => none)
      | '{' :: r =>
          (match skipJsonWs r with
           | '}' :: r' => some (.obj [], r')
           | r' =>
               match parseJMembers fuel [] r' with
               | some (ms, r'') => some (.obj ms, r'')
               | none => none)
      | c :: rest =>
          if c == '-' || isDigitChar c then parseJNum (c :: rest) else none
      | [] => none

def parseJElems (fuel : Nat) (cs : List Char) : Option (List Json × List Char) :=
  match fuel with
  | 0 => none
  | fuel + 1 =>
      match parseJVal fuel cs with
      | none => none
      | some (v, r) =>
          match skipJsonWs r with
          | ',' :: r' =>
              match parseJElems fuel r' with
              | some (vs, r'') => some (v :: vs, r'')
              | none => none
          | ']' :: r' => some ([v], r')
          | _ => none

def parseJMembers (fuel : Nat) (acc : List (String × Json)) (cs : List Char) :
    Option (List (String × Json) × List Char) :=
  match fuel with
  | 0 => none
  | fuel + 1 =>
      match skipJsonWs cs with
      | '"' :: r =>
          match parseJStr (r.length + 1) [] r with
          | none => none
          | some (key, r1) =>
              match skipJsonWs r1 with
              | ':' :: r2 =>
                  match parseJVal fuel r2 with
                  | none => none
                  | some (v, r3) =>
                      let acc' := objInsert acc key v
                      match skipJsonWs r3 with
                      | ',' :: r4 => parseJMembers fuel acc' r4
                      | '}' :: r4 => some (acc', r4)
                      | _ => none
              | _ => none
      | _ => none
end

/-- `json.loads`: a complete parse of the whole text. -/
def jsonLoads (s : String) : Option Json :=
  let cs := s.toList
  match parseJVal (2 * cs.length + 8) cs with
  | some (v, rest) => if (skipJsonWs rest).isEmpty then some v else none
  | none => none

/-! ### A model of `ast.literal_eval`

The fragment reached by the parsers: strings in single or double quotes
(with the common escapes; unrecognized escapes keep the backslash),
`True`/`False`/`None`, numbers with optional sign, lists, tuples (returned
as lists, which is enough for the callers' `isinstance(..., dict)` tests),
and dicts with string keys; trailing commas are allowed. Dict keys that
are not strings, sets, and the rarer literal forms are out of the model
and fail, which only widens the failure case the callers already handle. -/

def parseLitStr (q : Char) (acc : List Char) : List Char → Option (String × List Char)
  | [] => none
  | '\\' :: esc =>
      match esc with
      | 'n' :: rest => parseLitStr q ('\n' :: acc) rest
      | 't' :: rest => parseLitStr q ('\t' :: acc) rest
      | 'r' :: rest => parseLitStr q ('\r' :: acc) rest
      | '\\' :: rest => parseLitStr q ('\\' :: acc) rest
      | '\x27' :: rest => parseLitStr q ('\x27' :: acc) rest
      | '"' :: rest => parseLitStr q ('"' :: acc) rest
      | 'u' :: a :: b :: c :: d :: rest =>
          match hex4Val a b c d with
          | some n => parseLitStr q (codeUnitChar n :: acc) rest
          | none => none
      | c :: rest => parseLitStr q (c :: '\\' :: acc) rest
      | [] => none
  | c :: rest =>
      if c == q then some (String.mk acc.reverse, rest)
      else parseLitStr q (c :: acc) rest

mutual
def parseLVal (fuel : Nat) (cs : List Char) : Option (Json × List Char) :=
  match fuel with
  | 0 => none
  | fuel + 1 =>
      match skipJsonWs cs with
      | 'N' :: 'o' :: 'n' :: 'e' :: r => some (.null, r)
      | 'T' :: 'r' :: 'u' :: 'e' :: r => some (.bool true, r)
      | 'F' :: 'a' :: 'l' :: 's' :: 'e' :: r => some (.bool false, r)
      | '"' :: r =>
          match parseLitStr '"' [] r with
          | some (s, r') => some (.str s, r')
          | none => none
      | '\x27' :: r =>
          match parseLitStr '\x27' [] r with
          | some (s, r') => some (.str s, r')
          | none => none
      | '[' :: r => parseLSeq fuel ']' [] r
      | '(' :: r => parseLSeq fuel ')' [] r
      | '{' :: r => parseLDict fuel [] r
      | '+' :: rest => parseJNum rest
      | c :: rest =>
          if c == '-' || isDigitChar c then parseJNum (c :: rest) else none
      | [] => none

/-- Comma-separated values until the closer, trailing comma allowed. -/
def parseLSeq (fuel : Nat) (close : Char) (acc : List Json) (cs : List Char) :
    Option (Json × List Char) :=
  match fuel with
  | 0 => none
  | fuel + 1 =>
      match skipJsonWs cs with
      | c :: r =>
          if c == close then some (.arr acc.reverse, r)
          else
            match parseLVal fuel (c :: r) with
            | none => none
            | some (v, r1) =>
                match skipJsonWs r1 with
                | ',' :: r2 => parseLSeq fuel close (v :: acc) r2
                | c2 :: r2 =>
                    if c2 == close then some (.arr (v :: acc).reverse, r2) else none
                | [] => none
      | [] => none

def parseLDict (fuel : Nat) (acc : List (String × Json)) (cs : List Char) :
    Option (Json × List Char) :=
  match fuel with
  | 0 => none
  | fuel + 1 =>
      match skipJsonWs cs with
      | '}' :: r => some (.obj acc, r)
      | cs' =>
          match parseLVal fuel cs' with
          | some (.str key, r1) =>
              match skipJsonWs r1 with
              | ':' :: r2 =>
                  match parseLVal fuel r2 with
                  | none => none
                  | some (v, r3) =>
                      let acc' := objInsert acc key v
                      match skipJsonWs r3 with
                      | ',' :: r4 => parseLDict fuel acc' r4
                      | '}' :: r4 => some (.obj acc', r4)
                      | _ => none
              | _ => none
          | _ => none
end

/-- `ast.literal_eval`: a complete parse of the whole text. -/
def literalEval (s : String) : Option Json :=
  let cs := s.toList
  match parseLVal (2 * cs.length + 8) cs with
  | some (v, rest) => if (skipJsonWs rest).isEmpty then some v else none
  | none => none

/-! ### `plan_norm.py` -/

/-- `TOOL_NAME_MAP`: generic labels mapped to real tools; `combine_results`
maps to `None` and is skipped. -/
def TOOL_NAME_MAP : List (String × Option String) :=
  [("text_summarization", some "summarize_email"),
   ("task_extraction", some "detect_tasks"),
   ("meeting_suggestion", some "suggest_meetings"),
   ("combine_results", none)]

/-- `ALLOWED_TOOLS` (the Tool Registry). -/
def allowedTools : List String :=
  ["summarize_email", "process_email", "detect_tasks", "suggest_meetings",
   "translate_text", "chat_with_context", "classify_attachment", "query_attachment"]

/-- `TOOL_NAME_MAP.get(x, x)`: identity on hashable non-matching values,
`TypeError` on unhashable ones, the mapped value (possibly `None`) on the
four known labels. -/
def toolMapGet (toolName : Json) : Except PyErr Json :=
  if !toolName.hashable then .error .typeError
  else
    match toolName with
    | .str s =>
        match (TOOL_NAME_MAP.find? (fun p => p.1 = s)).map (·.2) with
        | some (some t) => .ok (.str t)
        | some none => .ok .null
        | none => .ok (.str s)
    | v => .ok v

/-- `_infer_tool_from_task_text`: the ordered keyword heuristics. -/
def _infer_tool_from_task_text (taskText : String) : Option String :=
  let t := asciiLower taskText
  if summaryMatch t then some "summarize_email"
  else if taskPatMatch t && containsSub t "extract" then some "detect_tasks"
  else if meetingMatch t then some "suggest_meetings"
  else if translateMatch t then some "translate_text"
  else if classifyMatch t then some "classify_attachment"
  else if attachQaMatch t then some "query_attachment"
  else if containsSub t "task" then some "detect_tasks"
  else none

/-- The tools whose string input is stored under `email_text` in the
heuristic branch (the five-element tuple at line 109 of the source). -/
def emailTextToolsHeuristic : List String :=
  ["summarize_email", "process_email", "detect_tasks", "suggest_meetings", "translate_text"]

/-- The tools whose string input is stored under `email_text` in the
nested-actions branch (the four-element tuple at line 169; it lacks
`translate_text`). -/
def emailTextToolsActions : List String :=
  ["summarize_email", "process_email", "detect_tasks", "suggest_meetings"]

/-- One action of the nested-actions shape, producing `none` for a skipped
action (tool label mapped to `None` or absent) and `AttributeError` for a
non-dict action. `count` is the number of steps already accumulated. -/
def stepFromAction (count : Nat) (notesVal : Json) (a : Json) :
    Except PyErr (Option Json) :=
  match a with
  | .obj entries => do
      let toolName := (objLookup entries "tool").getD .null
      let mapped ← toolMapGet toolName
      match mapped with
      | .null => pure none
      | mapped =>
        let args : Json :=
          match (objLookup entries "input").getD .null with
          | .obj ivs => .obj ivs
          | .str sv =>
              let cleanedInput := _clean_email_input sv
              if (match mapped with
                  | .str m => emailTextToolsActions.contains m
                  | _ => false)
              then .obj [("email_text", .str cleanedInput)]
              else .obj [("input_text", .str cleanedInput)]
          | _ => .obj []
        pure (some (Json.obj
          [("order", .int (count + 1)), ("task_id", .null), ("tool", mapped),
           ("args", args), ("notes", notesVal)]))
  | _ => .error .attrError

/-- Flatten one step's action list, appending the produced steps. -/
def actionsFold (notesVal : Json) : List Json → List Json → Except PyErr (List Json)
  | [], acc => .ok acc
  | a :: rest, acc => do
      let r ← stepFromAction acc.length notesVal a
      match r with
      | some st => actionsFold notesVal rest (acc ++ [st])
      | none => actionsFold notesVal rest acc

/-- Branch 1 of the normalization pipeline: steps carrying an `actions`
list are flattened; all other steps are ignored by this branch. -/
def stepsFromActions : List Json → List Json → Except PyErr (List Json)
  | [], acc => .ok acc
  | s :: rest, acc =>
      match s with
      | .obj entries =>
          match objLookup entries "actions" with
          | some (.arr actions) => do
              let notesVal := (objLookup entries "description").getD .null
              let acc' ← actionsFold notesVal actions acc
              stepsFromActions rest acc'
          | _ => stepsFromActions rest acc
      | _ => stepsFromActions rest acc

/-- Branch 2: already-canonical steps (`order` and `tool` present); the
tool label is mapped through the synonym table and the step dropped unless
the result is truthy and registered. The kept step is the raw dict with
its `tool` entry overwritten. -/
def stepsCanonical : List Json → Except PyErr (List Json)
  | [] => .ok []
  | s :: rest =>
      match s with
      | .obj entries =>
          if (objLookup entries "order").isSome && (objLookup entries "tool").isSome then do
            let tv := (objLookup entries "tool").getD .null
            let toolName ← toolMapGet tv
            if toolName.truthy &&
               (match toolName with
                | .str t => allowedTools.contains t
                | _ => false) then
              let rest' ← stepsCanonical rest
              pure (pySetKey s "tool" toolName :: rest')
            else stepsCanonical rest
          else stepsCanonical rest
      | _ => stepsCanonical rest

/-- Branch 3 (`_heuristic_from_step_shape`): free-text `task`/`input`
steps; the tool is inferred from the task text, defaulting to
`process_email`; `counter` is the next `order` value. -/
def heuristicAux : List Json → Nat → Except PyErr (List Json)
  | [], _ => .ok []
  | s :: rest, counter =>
      match s with
      | .obj entries =>
          if (objLookup entries "actions").isSome ||
             ((objLookup entries "tool").isSome && (objLookup entries "order").isSome) then
            heuristicAux rest counter
          else if (objLookup entries "task").isSome && (objLookup entries "input").isSome then
            match (objLookup entries "task").getD .null with
            | .str taskText =>
                let tool := (_infer_tool_from_task_text taskText).getD "process_email"
                if allowedTools.contains tool then
                  let inputVal := (objLookup entries "input").getD .null
                  let emailText := _clean_email_input (pyStr inputVal)
                  let args : Json :=
                    if emailTextToolsHeuristic.contains tool then
                      .obj [("email_text", .str emailText)]
                    else .obj [("input_text", .str emailText)]
                  let step := Json.obj
                    [("order", .int counter), ("task_id", .null), ("tool", .str tool),
                     ("args", args), ("notes", .str taskText)]
                  do
                    let rest' ← heuristicAux rest (counter + 1)
                    pure (step :: rest')
                else heuristicAux rest counter
            | _ => .error .attrError
          else heuristicAux rest counter
      | _ => heuristicAux rest counter

def _heuristic_from_step_shape (stepsRaw : List Json) : Except PyErr (List Json) :=
  heuristicAux stepsRaw 1

/-- A synthesized task for the `ordinal`-th distinct tool. -/
def mkSynthTask (ordinal : Nat) (tool : Json) : Json :=
  .obj [("id", .str ("t" ++ toString ordinal)),
        ("description", .str ("Execute " ++ pyStr tool)),
        ("rationale", .str "Derived from decomposed step"),
        ("priority", .str "medium"),
        ("suggested_tools", .arr [tool]),
        ("requires_sequential", .bool false)]

/-- Task synthesis: one task per distinct tool of the resolved steps, in
first-appearance order (`seen` are the tools met so far, `acc` the tasks
built so far). A dict-key membership test raises `TypeError` on an
unhashable tool. -/
def synthAux : List Json → List Json → List Json → Except PyErr (List Json)
  | [], _, acc => .ok acc
  | s :: rest, seen, acc => do
      let tool ← pyGetKey s "tool"
      if !tool.hashable then .error .typeError
      else if pyMem tool seen then synthAux rest seen acc
      else synthAux rest (seen ++ [tool]) (acc ++ [mkSynthTask (seen.length + 1) tool])

/-- Python-dict `setdefault` on the tool-to-task-id association. -/
def setdefaultM (m : List (Json × Json)) (k v : Json) : List (Json × Json) :=
  if m.any (fun p => pyEqH p.1 k) then m else m ++ [(k, v)]

def mapLookup (m : List (Json × Json)) (k : Json) : Option Json :=
  (m.find? (fun p => pyEqH p.1 k)).map (·.2)

/-- Inner loop of the map building: `t["id"]` is evaluated for every tool
in the task's `suggested_tools` (so a missing `id` raises whenever that
list is non-empty), and an unhashable tool raises `TypeError`. -/
def foldTools (t : Json) : List Json → List (Json × Json) → Except PyErr (List (Json × Json))
  | [], m => .ok m
  | tool :: rest, m => do
      let tid ← pyGetKey t "id"
      if !tool.hashable then .error .typeError
      else foldTools t rest (setdefaultM m tool tid)

/-- `map_tool_task`: tool -> id of the first task suggesting it. -/
def buildToolTaskMap : List Json → List (Json × Json) → Except PyErr (List (Json × Json))
  | [], m => .ok m
  | t :: rest, m => do
      let sugVal ← pyGetD t "suggested_tools" (.arr [])
      let tools ← pyIter sugVal
      let m' ← foldTools t tools m
      buildToolTaskMap rest m'

/-- Task-id back-fill of one step: a step whose `task_id` is falsy gets
`map_tool_task.get(s["tool"], tasks[0]["id"])`, both arguments evaluated
eagerly in that order. -/
def backfillOne (tasks : List Json) (m : List (Json × Json)) (s : Json) :
    Except PyErr Json := do
  let cur ← pyGetD s "task_id" .null
  if !cur.truthy then do
    let toolV ← pyGetKey s "tool"
    let firstTask ← match tasks with
      | [] => .error .indexError
      | t :: _ => .ok t
    let defId ← pyGetKey firstTask "id"
    if !toolV.hashable then .error .typeError
    else pure (pySetKey s "task_id" ((mapLookup m toolV).getD defId))
  else pure s

/-- The back-fill loop over all resolved steps. -/
def backfillSteps (tasks : List Json) (m : List (Json × Json)) (ns : List Json) :
    Except PyErr (List Json) :=
  mapE (backfillOne tasks m) ns

/-- The canonical dict `normalize_decomposer_output` returns. -/
structure NormOut where
  original_goal : Json
  tasks : List Json
  steps : List Json
  coverage_notes : Json

/-- The `"plan" in data and isinstance(data["plan"], dict)` unwrap,
including the exceptions `in` and indexing raise on non-dict values. -/
def unwrapPlan (data0 : Json) : Except PyErr Json :=
  match data0 with
  | .obj entries =>
      .ok (match objLookup entries "plan" with
        | some (.obj p) => Json.obj p
        | _ => data0)
  | .str s => if containsSub s "plan" then .error .typeError else .ok data0
  | .arr l => if pyMem (.str "plan") l then .error .typeError else .ok data0
  | _ => .error .typeError

/-- The three-branch step-shape resolution: nested actions first, then
already-canonical steps, then the heuristic shape, each tried only when
the previous branches produced nothing. -/
def resolveSteps (stepsList : List Json) : Except PyErr (List Json) := do
  let ns1 ← stepsFromActions stepsList []
  let ns2 ← if ns1.isEmpty then stepsCanonical stepsList else .ok ns1
  if ns2.isEmpty then _heuristic_from_step_shape stepsList else .ok ns2

/-- The body of `normalize_decomposer_output` after decoding. -/
def normalizeData (data0 : Json) : Except PyErr NormOut := do
  let data ← unwrapPlan data0
  let og1 ← pyGetD data "original_goal" .null
  let og2 ← pyGetD data "goal" .null
  let originalGoal := if og1.truthy then og1 else if og2.truthy then og2 else .str ""
  let tasksVal ← pyGetD data "tasks" (.arr [])
  let stepsVal ← pyGetD data "steps" (.arr [])
  let stepsList ← pyIter stepsVal
  let ns ← resolveSteps stepsList
  if ns.isEmpty then .error .noSteps
  else do
    let tasksJ ← if !tasksVal.truthy then synthAux ns [] [] else pyIter tasksVal
    let m ← buildToolTaskMap tasksJ []
    let steps ← backfillSteps tasksJ m ns
    let cov ← pyGetD data "coverage_notes" .null
    pure { original_goal := originalGoal, tasks := tasksJ, steps := steps,
           coverage_notes := cov }

/-- `try_json_load`: strip, remove trailing commas, decode. -/
def try_json_load (raw : String) : Except PyErr Json :=
  match jsonLoads (String.mk (rmTrailCommas (pyStrip raw).toList)) with
  | some d => .ok d
  | none => .error .decodeError

/-- `normalize_decomposer_output` on the raw text. -/
def normalize_decomposer_output (raw : String) : Except PyErr NormOut := do
  let cleaned := extract_json_block raw
  let data ← try_json_load cleaned
  normalizeData data

/-! ### `task_schema.py` (the pydantic models)

Constructors model pydantic validation: required fields must be present,
`Literal` fields must hold one of their listed values, typed fields must
hold a value of the annotated type, extra keys are ignored, and declared
defaults fill missing fields. Version-specific numeric/string coercions
are not modelled: every theorem below either feeds a constructor an
already-well-typed value or is conditional on the constructor's outcome,
so the exact boundary between the coercing and rejecting variants is
immaterial here — except for `Literal` fields, which both pydantic majors
validate by membership, the fact several claims turn on. -/

inductive Priority where
  | low | medium | high
deriving Repr, DecidableEq

structure AtomicTask where
  id : String
  description : String
  rationale : Option String
  priority : Option Priority
  suggested_tools : List String
  requires_sequential : Bool

structure ExecutionStep where
  order : Int
  task_id : String
  tool : String
  args : List (String × Json)
  notes : Option String

structure DecomposedPlan where
  original_goal : String
  tasks : List AtomicTask
  steps : List ExecutionStep
  coverage_notes : Option String

inductive Severity where
  | info | warning | error
deriving Repr, DecidableEq

structure ValidationIssue where
  severity : Severity
  message : String
  related_task_ids : List String

inductive VStatus where
  | ok | needs_revision | failed
deriving Repr, DecidableEq

structure ValidationReport where
  goal : String
  plan_task_count : Int
  executed_task_ids : List String
  missing_task_ids : List String
  extraneous_tasks : List String
  adequacy_score : Rat
  status : VStatus
  issues : List ValidationIssue
  summary : String

def asStr : Json → Except PyErr String
  | .str s => .ok s
  | _ => .error .validation

def asOptStr : Option Json → Except PyErr (Option String)
  | none => .ok none
  | some .null => .ok none
  | some (.str s) => .ok (some s)
  | some _ => .error .validation

def asStrList : Json → Except PyErr (List String)
  | .arr l => mapE asStr l
  | _ => .error .validation

/-- `AtomicTask(**t)`. -/
def mkAtomicTask (j : Json) : Except PyErr AtomicTask :=
  match j with
  | .obj e => do
      let id ← asStr ((objLookup e "id").getD .null)
      let description ← asStr ((objLookup e "description").getD .null)
      let rationale ← asOptStr (objLookup e "rationale")
      let priority ← match objLookup e "priority" with
        | none => .ok (some Priority.medium)
        | some .null => .ok none
        | some (.str "low") => .ok (some Priority.low)
        | some (.str "medium") => .ok (some Priority.medium)
        | some (.str "high") => .ok (some Priority.high)
        | some _ => .error .validation
      let suggested ← match objLookup e "suggested_tools" with
        | none => .ok []
        | some v => asStrList v
      let reqSeq ← match objLookup e "requires_sequential" with
        | none => .ok false
        | some (.bool b) => .ok b
        | some _ => .error .validation
      pure ⟨id, description, rationale, priority, suggested, reqSeq⟩
  | _ => .error .typeError

/-- `ExecutionStep(**s)`. -/
def mkExecutionStep (j : Json) : Except PyErr ExecutionStep :=
  match j with
  | .obj e => do
      let order ← match objLookup e "order" with
        | some (.int n) => .ok n
        | _ => .error .validation
      let taskId ← asStr ((objLookup e "task_id").getD .null)
      let tool ← asStr ((objLookup e "tool").getD .null)
      let args ← match objLookup e "args" with
        | some (.obj a) => .ok a
        | _ => .error .validation
      let notes ← asOptStr (objLookup e "notes")
      pure ⟨order, taskId, tool, args, notes⟩
  | _ => .error .typeError

/-- `DecomposedPlan(original_goal=og, tasks=..., steps=...,
coverage_notes=cov)` with already-constructed tasks and steps. -/
def mkPlanOgCov (og cov : Json) (tasks : List AtomicTask) (steps : List ExecutionStep) :
    Except PyErr DecomposedPlan := do
  let ogS ← asStr og
  let covS ← match cov with
    | .null => .ok none
    | .str s => .ok (some s)
    | _ => .error .validation
  pure ⟨ogS, tasks, steps, covS⟩

/-- `ValidationIssue(**i)`. -/
def mkValidationIssue (j : Json) : Except PyErr ValidationIssue :=
  match j with
  | .obj e => do
      let severity ← match objLookup e "severity" with
        | some (.str "info") => .ok Severity.info
        | some (.str "warning") => .ok Severity.warning
        | some (.str "error") => .ok Severity.error
        | _ => .error .validation
      let message ← asStr ((objLookup e "message").getD .null)
      let related ← match objLookup e "related_task_ids" with
        | none => .ok []
        | some v => asStrList v
      pure ⟨severity, message, related⟩
  | _ => .error .typeError

/-! ### `crew_agents.py`: `parse_plan` and `parse_validation`

The CrewAI wrapper objects (`.json_dict` / `.raw` attributes) are outside
the modelled boundary; an input is either a raw string or an
already-decoded value, exactly the two cases those attributes reduce to. -/

inductive RawIn where
  | str (s : String)
  | data (j : Json)

def rawToStr : RawIn → String
  | .str s => s
  | .data j => pyStr j

/-- Python slicing `s[:n]` (by code point). -/
def strTake (s : String) (n : Nat) : String :=
  String.mk (s.toList.take n)

/-- Python `float(x)`: numbers and booleans by value, strings through the
standard decimal grammar (the fragment `parseJNum` covers; the rarer
accepted spellings such as a bare leading dot or infinities fail here,
a boundary no theorem depends on), `TypeError` otherwise. -/
def pyFloat : Json → Except PyErr Rat
  | .int n => .ok n
  | .float q => .ok q
  | .bool b => .ok (if b then 1 else 0)
  | .str s =>
      let cs := (pyStrip s).toList
      let cs' := match cs with
        | '+' :: r => r
        | _ => cs
      (match parseJNum cs' with
       | some (.int n, []) => .ok (n : Rat)
       | some (.float q, []) => .ok q
       | _ => .error .valueError)
  | _ => .error .typeError

/-- The body of `parse_validation` after decoding: every field read with
its default, `float` coercion of the score, issue construction, then
pydantic validation of the report. Evaluation order follows the source;
any raised error is turned into the caller's ValueError. -/
def buildReport (data : Json) : Except PyErr ValidationReport := do
  let goalV ← pyGetD data "goal" (.str "")
  let ptcV ← pyGetD data "plan_task_count" (.int 0)
  let exV ← pyGetD data "executed_task_ids" (.arr [])
  let miV ← pyGetD data "missing_task_ids" (.arr [])
  let etV ← pyGetD data "extraneous_tasks" (.arr [])
  let adqV ← pyGetD data "adequacy_score" (.float 0)
  let adq ← pyFloat adqV
  let stV ← pyGetD data "status" (.str "failed")
  let issV ← pyGetD data "issues" (.arr [])
  let issL ← pyIter issV
  let issues ← mapE mkValidationIssue issL
  let sumV ← pyGetD data "summary" (.str "")
  let goal ← asStr goalV
  let ptc ← match ptcV with
    | .int n => .ok n
    | _ => .error .validation
  let ex ← asStrList exV
  let mi ← asStrList miV
  let et ← asStrList etV
  let status ← match stV with
    | .str "ok" => .ok VStatus.ok
    | .str "needs_revision" => .ok VStatus.needs_revision
    | .str "failed" => .ok VStatus.failed
    | _ => .error .validation
  let summary ← asStr sumV
  pure ⟨goal, ptc, ex, mi, et, adq, status, issues, summary⟩

/-- `parse_validation`. -/
def parse_validation (raw : RawIn) : Except PyErr ValidationReport := do
  let data ← match raw with
    | .data j => Except.ok j
    | .str s =>
        let cleaned := _strip_markdown_fences s
        match jsonLoads cleaned with
        | some d => Except.ok d
        | none =>
            match literalEval cleaned with
            | some d => Except.ok d
            | none => Except.error PyErr.decodeError
  match buildReport data with
  | .ok r => .ok r
  | .error _ => .error .validation

/-- The distinct `last_error` values the strategy loop of `parse_plan`
can leave behind. -/
inductive PlanCause where
  | missingDirect    -- ValueError("Direct parse missing required keys")
  | missingUnwrap    -- ValueError("Unwrapped plan missing required keys")
  | exc (e : PyErr)
deriving Repr, DecidableEq

/-- The two failure exits of `parse_plan`: the early decode failure and
the final all-strategies-exhausted failure; each carries the
`str(raw)[:1000]` snippet of its message. -/
inductive PlanFail where
  | notParseable (snippet : String)
  | allFailed (last : PlanCause) (snippet : String)
deriving Repr, DecidableEq

/-- Python `k in v` for a string key. -/
def pyIn (key : String) (j : Json) : Except PyErr Bool :=
  match j with
  | .obj e => .ok (objLookup e key).isSome
  | .arr l => .ok (pyMem (.str key) l)
  | .str s => .ok (containsSub s key)
  | _ => .error .typeError

/-- `all(k in data for k in ["original_goal", "tasks", "steps"])`. -/
def hasAllKeys (j : Json) : Except PyErr Bool := do
  let b1 ← pyIn "original_goal" j
  if !b1 then .ok false
  else do
    let b2 ← pyIn "tasks" j
    if !b2 then .ok false else pyIn "steps" j

/-- The shared task/step construction of the direct and unwrap arms. -/
def buildTasksSteps (data : Json) : Except PyErr (List AtomicTask × List ExecutionStep) := do
  let tV ← pyGetD data "tasks" (.arr [])
  let tL ← pyIter tV
  let tasks ← mapE mkAtomicTask tL
  let sV ← pyGetD data "steps" (.arr [])
  let sL ← pyIter sV
  let steps ← mapE mkExecutionStep sL
  pure (tasks, steps)

/-- One direct/unwrap arm body on `data`: `some plan` on success, `none`
when keys are missing or a list is empty (the arm's own ValueError). -/
def armBody (data : Json) : Except PyErr (Option DecomposedPlan) := do
  let ok ← hasAllKeys data
  if ok then do
    let (tasks, steps) ← buildTasksSteps data
    if !tasks.isEmpty && !steps.isEmpty then do
      let og ← pyGetD data "original_goal" (.str "")
      let cov ← pyGetD data "coverage_notes" .null
      let plan ← mkPlanOgCov og cov tasks steps
      pure (some plan)
    else pure none
  else pure none

/-- The `direct` attempt with its try/except. -/
def tryDirect (data : Json) : Except PlanCause DecomposedPlan :=
  match armBody data with
  | .ok (some p) => .ok p
  | .ok none => .error .missingDirect
  | .error e => .error (.exc e)

/-- The `unwrap` attempt: it re-checks for a nested `"plan"` key, and its
reassignment of `data` persists for the normalize fallback even when the
attempt fails (the second component is the possibly-unwrapped data). -/
def tryUnwrap (data : Json) : Except PlanCause DecomposedPlan × Json :=
  match data with
  | .obj e =>
      match objLookup e "plan" with
      | some (.obj p) =>
          let inner := Json.obj p
          (match armBody inner with
           | .ok (some plan) => (.ok plan, inner)
           | .ok none => (.error .missingUnwrap, inner)
           | .error e' => (.error (.exc e'), inner))
      | _ => (.error .missingUnwrap, data)
  | .str s =>
      if containsSub s "plan" then (.error (.exc .typeError), data)
      else (.error .missingUnwrap, data)
  | .arr l =>
      if pyMem (.str "plan") l then (.error (.exc .typeError), data)
      else (.error .missingUnwrap, data)
  | _ => (.error (.exc .typeError), data)

/-- The final fallback: re-serialize the (possibly unwrapped) data and run
the full normalizer, then construct the typed plan from its output. -/
def normalizeFallback (data : Json) : Except PyErr DecomposedPlan := do
  let normOut ← normalize_decomposer_output (jsonDumps data)
  let tasks ← mapE mkAtomicTask normOut.tasks
  let steps ← mapE mkExecutionStep normOut.steps
  mkPlanOgCov normOut.original_goal normOut.coverage_notes tasks steps

/-- `parse_plan`. -/
def parse_plan (raw : RawIn) : Except PlanFail DecomposedPlan :=
  let rawS := rawToStr raw
  let dataOpt : Option Json := match raw with
    | .data j => some j
    | .str s =>
        let cleaned := _strip_markdown_fences s
        match jsonLoads cleaned with
        | some d => some d
        | none => literalEval cleaned
  match dataOpt with
  | none => .error (.notParseable (strTake rawS 1000))
  | some data =>
      match tryDirect data with
      | .ok p => .ok p
      | .error _ =>
          match tryUnwrap data with
          | (.ok p, _) => .ok p
          | (.error _, data2) =>
              match normalizeFallback data2 with
              | .ok p => .ok p
              | .error e => .error (.allFailed (.exc e) (strTake rawS 1000))

/-! ### `agent_v2.py`: the plan serialization of the execution phase -/

def priorityStr : Priority → String
  | .low => "low"
  | .medium => "medium"
  | .high => "high"

def optStrJson : Option String → Json
  | none => .null
  | some s => .str s

/-- `t.dict()` on an `AtomicTask` (all fields, `None` for unset options). -/
def taskDict (t : AtomicTask) : Json :=
  .obj [("id", .str t.id),
        ("description", .str t.description),
        ("rationale", optStrJson t.rationale),
        ("priority", match t.priority with
          | none => .null
          | some p => .str (priorityStr p)),
        ("suggested_tools", .arr (t.suggested_tools.map Json.str)),
        ("requires_sequential", .bool t.requires_sequential)]

/-- `s.dict()` on an `ExecutionStep`. -/
def stepDict (s : ExecutionStep) : Json :=
  .obj [("order", .int s.order),
        ("task_id", .str s.task_id),
        ("tool", .str s.tool),
        ("args", .obj s.args),
        ("notes", optStrJson s.notes)]

/-- The `plan_dict` the router builds before `json.dumps`: the canonical
JSON shape of a plan. -/
def serializePlan (p : DecomposedPlan) : Json :=
  .obj [("original_goal", .str p.original_goal),
        ("tasks", .arr (p.tasks.map taskDict)),
        ("steps", .arr (p.steps.map stepDict)),
        ("coverage_notes", optStrJson p.coverage_notes)]

/-- The effectively-computed `suggested_tools` iteration of a task, when
the reads the map-building performs on it succeed. -/
def sugListOf (t : Json) : Option (List Json) :=
  match pyGetD t "suggested_tools" (.arr []) with
  | .ok sv =>
      match pyIter sv with
      | .ok l => some l
      | .error _ => none
  | .error _ => none

/-- Does the task suggest the tool (Python `in` semantics)? -/
def suggests (t tool : Json) : Bool :=
  match sugListOf t with
  | some l => pyMem tool l
  | none => false

/-- The first task (in list order) whose `suggested_tools` contains the
tool. -/
def firstSuggestTask (tasks : List Json) (tool : Json) : Option Json :=
  tasks.find? (fun t => suggests t tool)


/-- The pure content of the task-synthesis loop. -/
def synthPure : List Json → List Json → List Json → List Json
  | _, acc, [] => acc
  | seen, acc, tool :: rest =>
      if pyMem tool seen then synthPure seen acc rest
      else synthPure (seen ++ [tool]) (acc ++ [mkSynthTask (seen.length + 1) tool]) rest

/-- First-appearance deduplication with Python equality. -/
def dedupPyEq : List Json → List Json → List Json
  | _, [] => []
  | seen, x :: xs =>
      if pyMem x seen then dedupPyEq seen xs else x :: dedupPyEq (seen ++ [x]) xs

/-- The synthesized tasks for an ordinal-indexed list of distinct tools. -/
def mkSynthFrom (k : Nat) : List Json → List Json
  | [] => []
  | t :: ts => mkSynthTask k t :: mkSynthFrom (k + 1) ts


/-- The normalized output of Scenario A once the step list is under the
`steps` key. -/
def scenarioAOut : NormOut :=
  { original_goal := .str ""
  , tasks := [Json.obj
      [("id", .str "t1"), ("description", .str "Execute summarize_email"),
       ("rationale", .str "Derived from decomposed step"), ("priority", .str "medium"),
       ("suggested_tools", .arr [.str "summarize_email"]),
       ("requires_sequential", .bool false)]]
  , steps := [Json.obj
      [("order", .int 1), ("task_id", .str "t1"), ("tool", .str "summarize_email"),
       ("args", .obj [("email_text", .str "hello world")]),
       ("notes", .str "Summarize this email")]]
  , coverage_notes := .null }


/-! ### Concrete inputs and outputs used by the verification -/

/-- A nested-actions raw text whose action names the unregistered tool
`frobnicate`. -/
def rawFrob : String :=
  "\x7b\"steps\":[\x7b\"description\":\"d\",\"actions\":[\x7b\"tool\":\"frobnicate\"\x7d]\x7d]\x7d"

/-- A canonical-steps raw text whose step already carries the task_id
`zzz`, which names no task. -/
def rawZzz : String :=
  "\x7b\"tasks\":[\x7b\"id\":\"t1\",\"suggested_tools\":[\"summarize_email\"]\x7d],\"steps\":[\x7b\"order\":1,\"tool\":\"summarize_email\",\"task_id\":\"zzz\"\x7d]\x7d"

/-- A raw text whose only task has a `null` id. -/
def rawNullId : String :=
  "\x7b\"tasks\":[\x7b\"id\":null,\"suggested_tools\":[\"summarize_email\"]\x7d],\"steps\":[\x7b\"order\":1,\"tool\":\"summarize_email\"\x7d]\x7d"

/-- A canonical-steps raw text with one task (id `t9`) and one step with
no `task_id`. -/
def rawT9 : String :=
  "\x7b\"tasks\":[\x7b\"id\":\"t9\",\"suggested_tools\":[\"summarize_email\"]\x7d],\"steps\":[\x7b\"order\":1,\"tool\":\"summarize_email\"\x7d]\x7d"

/-- A taskless raw text whose three steps use two distinct tools. -/
def rawTwoTools : String :=
  "\x7b\"steps\":[\x7b\"order\":1,\"tool\":\"summarize_email\"\x7d,\x7b\"order\":2,\"tool\":\"detect_tasks\"\x7d,\x7b\"order\":3,\"tool\":\"summarize_email\"\x7d]\x7d"

/-- `n` repetitions of the characters `1,`. -/
def onesList : Nat → List Char
  | 0 => []
  | n + 1 => '1' :: ',' :: onesList n

/-- A 1003-character JSON array of 501 ones: it decodes, every parse
strategy fails on it, and it is longer than the 1000-character snippet
bound. -/
def numsRaw : String := String.mk ('[' :: (onesList 500 ++ ['1', ']']))

/-! ## Helper lemmas -/

@[simp] theorem exbind_ok (a : α) (f : α → Except ε β) :
    (Except.ok a >>= f) = f a := rfl

@[simp] theorem exbind_error (e : ε) (f : α → Except ε β) :
    ((Except.error e : Except ε α) >>= f) = .error e := rfl

@[simp] theorem exmap_ok (g : α → β) (a : α) :
    (g <$> (Except.ok a : Except ε α)) = .ok (g a) := rfl

@[simp] theorem exmap_error (g : α → β) (e : ε) :
    (g <$> (Except.error e : Except ε α)) = (.error e : Except ε β) := rfl

@[simp] theorem expure_eq (a : α) :
    (pure a : Except ε α) = .ok a := rfl

theorem mapE_ok_length {f : α → Except PyErr β} :
    ∀ {l : List α} {out : List β}, mapE f l = .ok out → out.length = l.length := by
  intro l
  induction l with
  | nil => intro out h; simp [mapE] at h; simp [h]
  | cons a as ih =>
      intro out h
      simp only [mapE] at h
      cases hf : f a with
      | error e => rw [hf] at h; simp at h
      | ok b =>
          rw [hf] at h
          cases hm : mapE f as with
          | error e => rw [hm] at h; simp at h
          | ok bs =>
              rw [hm] at h
              simp at h
              subst h
              simp [ih hm]

theorem mapE_ok_get {f : α → Except PyErr β} :
    ∀ {l : List α} {out : List β}, mapE f l = .ok out →
      ∀ i (hi : i < l.length) (hi' : i < out.length),
        f (l.get ⟨i, hi⟩) = .ok (out.get ⟨i, hi'⟩) := by
  intro l
  induction l with
  | nil => intro out h i hi; exact absurd hi (by simp)
  | cons a as ih =>
      intro out h i hi hi'
      simp only [mapE] at h
      cases hf : f a with
      | error e => rw [hf] at h; simp at h
      | ok b =>
          rw [hf] at h
          cases hm : mapE f as with
          | error e => rw [hm] at h; simp at h
          | ok bs =>
              rw [hm] at h
              simp at h
              subst h
              cases i with
              | zero => simpa using hf
              | succ j =>
                  simp only [List.get]
                  exact ih hm j (by simpa using hi) (by simpa using hi')

theorem mapE_mem_of_ok {f : α → Except PyErr β} :
    ∀ {l : List α} {out : List β}, mapE f l = .ok out →
      ∀ b ∈ out, ∃ a ∈ l, f a = .ok b := by
  intro l
  induction l with
  | nil => intro out h b hb; simp [mapE] at h; subst h; simp at hb
  | cons a as ih =>
      intro out h b hb
      simp only [mapE] at h
      cases hf : f a with
      | error e => rw [hf] at h; simp at h
      | ok b0 =>
          rw [hf] at h
          cases hm : mapE f as with
          | error e => rw [hm] at h; simp at h
          | ok bs =>
              rw [hm] at h
              simp at h
              subst h
              rcases List.mem_cons.mp hb with rfl | hb
              · exact ⟨a, by simp, hf⟩
              · rcases ih hm b hb with ⟨a2, ha2, hfa2⟩
                exact ⟨a2, by simp [ha2], hfa2⟩

theorem objLookup_objInsert_self (entries : List (String × Json)) (kk : String) (v : Json) :
    objLookup (objInsert entries kk v) kk = some v := by
  induction entries with
  | nil => simp [objInsert, objLookup]
  | cons p rest ih =>
      obtain ⟨ka, va⟩ := p
      by_cases hk : ka = kk
      · subst hk; simp [objInsert, objLookup]
      · simp [objInsert, objLookup, hk, ih]

theorem objLookup_objInsert_ne (entries : List (String × Json)) (kk k2 : String) (v : Json)
    (hne : kk ≠ k2) : objLookup (objInsert entries kk v) k2 = objLookup entries k2 := by
  induction entries with
  | nil => simp [objInsert, objLookup, hne]
  | cons p rest ih =>
      obtain ⟨ka, va⟩ := p
      by_cases hk : ka = kk
      · simp only [objInsert, if_pos hk]
        by_cases hk2 : ka = k2
        · exact absurd (hk.symm.trans hk2) hne
        · simp [objLookup, hk2]
      · simp only [objInsert, if_neg hk]
        by_cases hk2 : ka = k2
        · simp [objLookup, hk2]
        · simp [objLookup, hk2, ih]

/-- The `tool` entry survives a `task_id` assignment. -/
theorem pyGetKey_pySetKey_taskid_tool (s : Json) (v : Json) :
    pyGetKey (pySetKey s "task_id" v) "tool" = pyGetKey s "tool" := by
  cases s with
  | obj e => simp [pySetKey, pyGetKey, objLookup_objInsert_ne e "task_id" "tool" v (by decide)]
  | null => rfl
  | bool b => rfl
  | int n => rfl
  | float q => rfl
  | str s => rfl
  | arr l => rfl

theorem pyEqH_symm (a b : Json) : pyEqH a b = pyEqH b a := by
  unfold pyEqH
  cases pyKey a <;> cases pyKey b <;> simp [eq_comm]

theorem pyEqH_trans {a b c : Json} (h1 : pyEqH a b = true) (h2 : pyEqH b c = true) :
    pyEqH a c = true := by
  unfold pyEqH at h1 h2 ⊢
  rcases hKa : pyKey a with _ | x <;> rcases hKb : pyKey b with _ | y <;>
    rcases hKc : pyKey c with _ | z <;> simp_all

theorem mapLookup_append_single (m : List (Json × Json)) (k v tool : Json) :
    mapLookup (m ++ [(k, v)]) tool =
      match mapLookup m tool with
      | some w => some w
      | none => if pyEqH k tool then some v else none := by
  induction m with
  | nil => by_cases h : pyEqH k tool <;> simp [mapLookup, List.find?, h]
  | cons p rest ih =>
      by_cases hp : pyEqH p.1 tool
      · simp [mapLookup, List.find?, hp]
      · simp only [mapLookup, List.cons_append, List.find?, hp] at ih ⊢
        simpa [Bool.not_eq_true, hp] using ih

theorem mapLookup_isSome_iff_any (m : List (Json × Json)) (k : Json) :
    (mapLookup m k).isSome = m.any (fun p => pyEqH p.1 k) := by
  induction m with
  | nil => simp [mapLookup]
  | cons p rest ih =>
      by_cases hp : pyEqH p.1 k
      · simp [mapLookup, List.find?, hp]
      · simp [mapLookup, List.find?, hp] at ih ⊢
        simpa [hp] using ih

/-- Values of the tool-to-task map built by `foldTools` come from the
accumulator or are the task's id. -/
theorem foldTools_mem (t : Json) :
    ∀ (tools : List Json) (m0 m : List (Json × Json)),
      foldTools t tools m0 = .ok m →
      ∀ kv ∈ m, kv ∈ m0 ∨ pyGetKey t "id" = .ok kv.2 := by
  intro tools
  induction tools with
  | nil =>
      intro m0 m h kv hkv
      simp [foldTools] at h
      subst h
      exact Or.inl hkv
  | cons tool rest ih =>
      intro m0 m h kv hkv
      simp only [foldTools] at h
      cases hid : pyGetKey t "id" with
      | error e => rw [hid] at h; simp at h
      | ok tid =>
          rw [hid] at h
          simp only [exbind_ok] at h
          by_cases hh : tool.hashable
          · rw [hh] at h
            simp only [Bool.not_true, Bool.false_eq_true, if_false] at h
            rcases ih (setdefaultM m0 tool tid) m h kv hkv with hin | hid2
            · unfold setdefaultM at hin
              split at hin
              · exact Or.inl hin
              · rcases List.mem_append.mp hin with hin | hin
                · exact Or.inl hin
                · simp at hin
                  exact Or.inr (by rw [hin])
            · exact Or.inr (hid.symm.trans hid2)
          · rw [Bool.not_eq_true] at hh
            rw [hh] at h
            simp at h

theorem foldTools_first_id {t : Json} {x : Json} {xs : List Json}
    {m0 m : List (Json × Json)} (h : foldTools t (x :: xs) m0 = .ok m) :
    ∃ tid, pyGetKey t "id" = .ok tid := by
  simp only [foldTools] at h
  cases hid : pyGetKey t "id" with
  | error e => rw [hid] at h; simp at h
  | ok tid => exact ⟨tid, rfl⟩

theorem mapLookup_setdefaultM (m0 : List (Json × Json)) (k v tool : Json)
    (htrans : pyEqH k tool = true → m0.any (fun p => pyEqH p.1 k) = true →
      (mapLookup m0 tool).isSome) :
    mapLookup (setdefaultM m0 k v) tool =
      match mapLookup m0 tool with
      | some w => some w
      | none => if pyEqH k tool then some v else none := by
  unfold setdefaultM
  by_cases hany : m0.any (fun p => pyEqH p.1 k) = true
  · rw [if_pos hany]
    cases hl : mapLookup m0 tool with
    | some w => simp
    | none =>
        by_cases hk : pyEqH k tool = true
        · have := htrans hk hany
          rw [hl] at this
          simp at this
        · simp only [hl]
          rw [Bool.not_eq_true] at hk
          simp [hk]
  · rw [if_neg hany]
    rw [mapLookup_append_single]

/-- Lookup in the map `foldTools` builds: an existing binding wins,
otherwise the task's id is bound exactly when the tool occurs in the
iterated list. -/
theorem foldTools_lookup (t tool : Json) :
    ∀ (tools : List Json) (m0 m : List (Json × Json)),
      foldTools t tools m0 = .ok m →
      mapLookup m tool =
        match mapLookup m0 tool with
        | some w => some w
        | none => if pyMem tool tools then (pyGetKey t "id").toOption else none := by
  intro tools
  induction tools with
  | nil =>
      intro m0 m h
      simp [foldTools] at h
      subst h
      cases mapLookup m0 tool <;> rfl
  | cons tl rest ih =>
      intro m0 m h
      simp only [foldTools] at h
      cases hid : pyGetKey t "id" with
      | error e => rw [hid] at h; simp at h
      | ok tid =>
          rw [hid] at h
          simp only [exbind_ok] at h
          by_cases hh : Json.hashable tl
          · rw [hh] at h
            simp only [Bool.not_true, Bool.false_eq_true, if_false] at h
            have hsd : mapLookup (setdefaultM m0 tl tid) tool =
                match mapLookup m0 tool with
                | some w => some w
                | none => if pyEqH tl tool then some tid else none := by
              apply mapLookup_setdefaultM
              intro hk hany
              rw [List.any_eq_true] at hany
              obtain ⟨p, hp, hpk⟩ := hany
              rw [mapLookup_isSome_iff_any, List.any_eq_true]
              exact ⟨p, hp, by simp [pyEqH_trans hpk hk]⟩
            have hihm := ih (setdefaultM m0 tl tid) m h
            rw [hihm, hsd]
            cases hl0 : mapLookup m0 tool with
            | some w => rfl
            | none =>
                by_cases hk : pyEqH tl tool = true
                · have hks : pyEqH tool tl = true := by rw [pyEqH_symm]; exact hk
                  have hmem : pyMem tool (tl :: rest) = true := by
                    simp [pyMem, hks]
                  simp [hk, hmem, hid, Except.toOption]
                · rw [Bool.not_eq_true] at hk
                  have hks : pyEqH tool tl = false := by rw [pyEqH_symm]; exact hk
                  have hmem : pyMem tool (tl :: rest) = pyMem tool rest := by
                    simp [pyMem, hks]
                  simp [hk, hmem, hid]
          · rw [Bool.not_eq_true] at hh
            rw [hh] at h
            simp at h

/-- Lookup in the finished tool-to-task map: the id of the first task (in
list order) suggesting the tool. -/
theorem buildToolTaskMap_lookup (tool : Json) :
    ∀ (tasks : List Json) (m0 m : List (Json × Json)),
      buildToolTaskMap tasks m0 = .ok m →
      mapLookup m tool =
        match mapLookup m0 tool with
        | some w => some w
        | none =>
            match firstSuggestTask tasks tool with
            | some t => (pyGetKey t "id").toOption
            | none => none := by
  intro tasks
  induction tasks with
  | nil =>
      intro m0 m h
      simp [buildToolTaskMap] at h
      subst h
      cases mapLookup m0 tool <;> rfl
  | cons t rest ih =>
      intro m0 m h
      simp only [buildToolTaskMap] at h
      cases hsug : pyGetD t "suggested_tools" (.arr []) with
      | error e => rw [hsug] at h; simp at h
      | ok sv =>
          rw [hsug] at h
          simp only [exbind_ok] at h
          cases hit : pyIter sv with
          | error e => rw [hit] at h; simp at h
          | ok tools =>
              rw [hit] at h
              simp only [exbind_ok] at h
              cases hft : foldTools t tools m0 with
              | error e => rw [hft] at h; simp at h
              | ok m1 =>
                  rw [hft] at h
                  simp only [exbind_ok] at h
                  have hsugg : suggests t tool = pyMem tool tools := by
                    simp [suggests, sugListOf, hsug, hit]
                  have hfirst : firstSuggestTask (t :: rest) tool =
                      if suggests t tool then some t else firstSuggestTask rest tool := by
                    simp [firstSuggestTask, List.find?]
                    cases suggests t tool <;> simp
                  have hih := ih m1 m h
                  have hfl := foldTools_lookup t tool tools m0 m1 hft
                  rw [hih, hfl]
                  cases hl0 : mapLookup m0 tool with
                  | some w => rfl
                  | none =>
                      by_cases hmem : pyMem tool tools = true
                      · rw [hfirst, hsugg, if_pos hmem]
                        cases htools : tools with
                        | nil => rw [htools] at hmem; simp [pyMem] at hmem
                        | cons x xs =>
                            rw [htools] at hft hmem
                            obtain ⟨tid, hid⟩ := foldTools_first_id hft
                            simp [hmem, hid, Except.toOption]
                      · rw [Bool.not_eq_true] at hmem
                        rw [hfirst, hsugg, if_neg (by simp [hmem])]
                        simp [hmem]

/-- Values of the finished tool-to-task map are ids of tasks in the list. -/
theorem buildToolTaskMap_mem :
    ∀ (tasks : List Json) (m0 m : List (Json × Json)),
      buildToolTaskMap tasks m0 = .ok m →
      ∀ kv ∈ m, kv ∈ m0 ∨ ∃ t ∈ tasks, pyGetKey t "id" = .ok kv.2 := by
  intro tasks
  induction tasks with
  | nil =>
      intro m0 m h kv hkv
      simp [buildToolTaskMap] at h
      subst h
      exact Or.inl hkv
  | cons t rest ih =>
      intro m0 m h kv hkv
      simp only [buildToolTaskMap] at h
      cases hsug : pyGetD t "suggested_tools" (.arr []) with
      | error e => rw [hsug] at h; simp at h
      | ok sv =>
          rw [hsug] at h
          simp only [exbind_ok] at h
          cases hit : pyIter sv with
          | error e => rw [hit] at h; simp at h
          | ok tools =>
              rw [hit] at h
              simp only [exbind_ok] at h
              cases hft : foldTools t tools m0 with
              | error e => rw [hft] at h; simp at h
              | ok m1 =>
                  rw [hft] at h
                  simp only [exbind_ok] at h
                  rcases ih m1 m h kv hkv with hin | ⟨t2, ht2, hid2⟩
                  · rcases foldTools_mem t tools m0 m1 hft kv hin with hin0 | hid
                    · exact Or.inl hin0
                    · exact Or.inr ⟨t, by simp, hid⟩
                  · exact Or.inr ⟨t2, by simp [ht2], hid2⟩

theorem pyGetD_ok_obj {s : Json} {k : String} {d v : Json}
    (h : pyGetD s k d = .ok v) : ∃ e, s = .obj e := by
  cases s <;> simp [pyGetD] at h
  exact ⟨_, rfl⟩

theorem pyGetKey_pySetKey_self {e : List (String × Json)} (k : String) (v : Json) :
    pyGetKey (pySetKey (.obj e) k v) k = .ok v := by
  simp [pySetKey, pyGetKey, objLookup_objInsert_self]

/-- A truthy `s.get("task_id")` comes from a present binding. -/
theorem pyGetKey_of_truthy_getD {s : Json} {cur : Json}
    (h : pyGetD s "task_id" .null = .ok cur) (ht : cur.truthy = true) :
    pyGetKey s "task_id" = .ok cur := by
  obtain ⟨e, rfl⟩ := pyGetD_ok_obj h
  simp only [pyGetD, Except.ok.injEq] at h
  cases hl : objLookup e "task_id" with
  | none =>
      rw [hl] at h
      simp [Option.getD] at h
      rw [← h] at ht
      simp [Json.truthy] at ht
  | some w =>
      rw [hl] at h
      simp [Option.getD] at h
      simp [pyGetKey, hl, h]

theorem backfillOne_truthy {tasks : List Json} {m : List (Json × Json)}
    {s out cur : Json} (h : backfillOne tasks m s = .ok out)
    (hcur : pyGetD s "task_id" .null = .ok cur) (ht : cur.truthy = true) : out = s := by
  simp only [backfillOne, hcur, exbind_ok, ht] at h
  simp at h
  exact h.symm

theorem backfillOne_falsy {tasks : List Json} {m : List (Json × Json)}
    {s out cur : Json} (h : backfillOne tasks m s = .ok out)
    (hcur : pyGetD s "task_id" .null = .ok cur) (ht : cur.truthy = false) :
    ∃ toolV t0 defId, pyGetKey s "tool" = .ok toolV ∧ tasks.head? = some t0 ∧
      pyGetKey t0 "id" = .ok defId ∧ toolV.hashable = true ∧
      out = pySetKey s "task_id" ((mapLookup m toolV).getD defId) := by
  simp only [backfillOne, hcur, exbind_ok, ht] at h
  simp only [Bool.not_false, if_true] at h
  cases htool : pyGetKey s "tool" with
  | error e => rw [htool] at h; simp at h
  | ok toolV =>
      rw [htool] at h
      simp only [exbind_ok] at h
      cases tasks with
      | nil => simp at h
      | cons t0 rest =>
          simp only [exbind_ok] at h
          cases hdef : pyGetKey t0 "id" with
          | error e => rw [hdef] at h; simp at h
          | ok defId =>
              rw [hdef] at h
              simp only [exbind_ok] at h
              by_cases hh : toolV.hashable
              · rw [hh] at h
                simp at h
                exact ⟨toolV, t0, defId, rfl, rfl, hdef, hh, h.symm⟩
              · rw [Bool.not_eq_true] at hh
                rw [hh] at h
                simp at h

theorem synthPure_eq :
    ∀ (tl seen acc : List Json),
      synthPure seen acc tl = acc ++ mkSynthFrom (seen.length + 1) (dedupPyEq seen tl) := by
  intro tl
  induction tl with
  | nil => intro seen acc; simp [synthPure, dedupPyEq, mkSynthFrom]
  | cons tool rest ih =>
      intro seen acc
      by_cases hmem : pyMem tool seen = true
      · simp [synthPure, dedupPyEq, hmem, ih]
      · rw [Bool.not_eq_true] at hmem
        simp only [synthPure, dedupPyEq, hmem, Bool.false_eq_true, if_false]
        rw [ih]
        simp [mkSynthFrom, List.append_assoc]

theorem synthAux_ok :
    ∀ (ns seen acc res : List Json), synthAux ns seen acc = .ok res →
      ∃ tl, mapE (fun s => pyGetKey s "tool") ns = .ok tl ∧ res = synthPure seen acc tl := by
  intro ns
  induction ns with
  | nil =>
      intro seen acc res h
      simp [synthAux] at h
      exact ⟨[], rfl, by simp [synthPure, h.symm]⟩
  | cons s rest ih =>
      intro seen acc res h
      simp only [synthAux] at h
      cases htool : pyGetKey s "tool" with
      | error e => rw [htool] at h; simp at h
      | ok tool =>
          rw [htool] at h
          simp only [exbind_ok] at h
          by_cases hh : tool.hashable
          · rw [hh] at h
            simp only [Bool.not_true, Bool.false_eq_true, if_false] at h
            by_cases hmem : pyMem tool seen = true
            · rw [if_pos hmem] at h
              obtain ⟨tl, hmap, hres⟩ := ih seen acc res h
              exact ⟨tool :: tl, by simp [mapE, htool, hmap],
                by simp [synthPure, hmem, hres]⟩
            · rw [Bool.not_eq_true] at hmem
              rw [hmem] at h
              simp only [Bool.false_eq_true, if_false] at h
              obtain ⟨tl, hmap, hres⟩ := ih _ _ res h
              refine ⟨tool :: tl, by simp [mapE, htool, hmap], ?_⟩
              simp [synthPure, hmem, hres]
          · rw [Bool.not_eq_true] at hh
            rw [hh] at h
            simp at h

theorem mkSynthFrom_mem :
    ∀ (l : List Json) (k : Nat) (t : Json), t ∈ mkSynthFrom k l →
      ∃ i tool, t = mkSynthTask i tool := by
  intro l
  induction l with
  | nil => intro k t ht; simp [mkSynthFrom] at ht
  | cons x xs ih =>
      intro k t ht
      simp only [mkSynthFrom] at ht
      rcases List.mem_cons.mp ht with rfl | ht
      · exact ⟨k, x, rfl⟩
      · exact ih (k + 1) t ht

theorem mkSynthTask_id (i : Nat) (tool : Json) :
    pyGetKey (mkSynthTask i tool) "id" = .ok (.str ("t" ++ toString i)) := by
  simp [mkSynthTask, pyGetKey, objLookup]

theorem synth_id_truthy (i : Nat) : (Json.str ("t" ++ toString i)).truthy = true := by
  simp only [Json.truthy]
  rw [decide_eq_true_eq]
  intro h
  have := congrArg String.length h
  simp [String.length_append] at this
  exact absurd this.1 (by decide)

/-- Every step the canonical branch keeps carries a registered tool. -/
theorem stepsCanonical_tool :
    ∀ (l res : List Json), stepsCanonical l = .ok res →
      ∀ s ∈ res, ∃ t, pyGetKey s "tool" = .ok (.str t) ∧ allowedTools.contains t = true := by
  intro l
  induction l with
  | nil =>
      intro res h s hs
      simp [stepsCanonical] at h
      subst h
      simp at hs
  | cons s0 rest ih =>
      intro res h s hs
      cases s0 with
      | obj e =>
          simp only [stepsCanonical] at h
          split at h
          · cases htm : toolMapGet ((objLookup e "tool").getD .null) with
            | error e2 => rw [htm] at h; simp at h
            | ok toolName =>
                rw [htm] at h
                simp only [exbind_ok] at h
                split at h
                next hcond =>
                  cases hrest : stepsCanonical rest with
                  | error e2 => rw [hrest] at h; simp at h
                  | ok rest2 =>
                      rw [hrest] at h
                      simp at h
                      subst h
                      rcases List.mem_cons.mp hs with rfl | hs2
                      · rw [Bool.and_eq_true] at hcond
                        cases toolName with
                        | str t =>
                            exact ⟨t, pyGetKey_pySetKey_self "tool" (.str t), hcond.2⟩
                        | null => simp at hcond
                        | bool b => simp at hcond
                        | int n => simp at hcond
                        | float q => simp at hcond
                        | arr a => simp at hcond
                        | obj o => simp at hcond
                      · exact ih rest2 hrest s hs2
                next hcond => exact ih res h s hs
          · exact ih res h s hs
      | null => exact ih res (by simpa [stepsCanonical] using h) s hs
      | bool b => exact ih res (by simpa [stepsCanonical] using h) s hs
      | int n => exact ih res (by simpa [stepsCanonical] using h) s hs
      | float q => exact ih res (by simpa [stepsCanonical] using h) s hs
      | str s2 => exact ih res (by simpa [stepsCanonical] using h) s hs
      | arr a => exact ih res (by simpa [stepsCanonical] using h) s hs

/-- Every step the heuristic branch emits carries a registered tool. -/
theorem heuristicAux_tool :
    ∀ (l : List Json) (c : Nat) (res : List Json), heuristicAux l c = .ok res →
      ∀ s ∈ res, ∃ t, pyGetKey s "tool" = .ok (.str t) ∧ allowedTools.contains t = true := by
  intro l
  induction l with
  | nil =>
      intro c res h s hs
      simp [heuristicAux] at h
      subst h
      simp at hs
  | cons s0 rest ih =>
      intro c res h s hs
      cases s0 with
      | obj e =>
          simp only [heuristicAux] at h
          split at h
          · exact ih c res h s hs
          · split at h
            · split at h
              next taskText heq =>
                split at h
                next hcont =>
                  cases hrest : heuristicAux rest (c + 1) with
                  | error e2 => rw [hrest] at h; simp at h
                  | ok rest2 =>
                      rw [hrest] at h
                      simp at h
                      subst h
                      rcases List.mem_cons.mp hs with rfl | hs2
                      · refine ⟨(_infer_tool_from_task_text taskText).getD "process_email",
                          ?_, hcont⟩
                        simp [pyGetKey, objLookup]
                      · exact ih (c + 1) rest2 hrest s hs2
                next hcont => exact ih c res h s hs
              next v hne heq => simp at h
            · exact ih c res h s hs
      | null => exact ih c res (by simpa [heuristicAux] using h) s hs
      | bool b => exact ih c res (by simpa [heuristicAux] using h) s hs
      | int n => exact ih c res (by simpa [heuristicAux] using h) s hs
      | float q => exact ih c res (by simpa [heuristicAux] using h) s hs
      | str s2 => exact ih c res (by simpa [heuristicAux] using h) s hs
      | arr a => exact ih c res (by simpa [heuristicAux] using h) s hs

/-- Inversion of the three-branch step resolution. -/
theorem resolveSteps_inv {l ns : List Json} (h : resolveSteps l = .ok ns) :
    ∃ ns1, stepsFromActions l [] = .ok ns1 ∧
      ((ns1 = [] ∧ ∃ ns2, stepsCanonical l = .ok ns2 ∧
          ((ns2 = [] ∧ _heuristic_from_step_shape l = .ok ns) ∨ (ns2 ≠ [] ∧ ns = ns2)))
       ∨ (ns1 ≠ [] ∧ ns = ns1)) := by
  simp only [resolveSteps] at h
  cases h1 : stepsFromActions l [] with
  | error e => rw [h1] at h; simp at h
  | ok ns1 =>
      rw [h1] at h
      simp only [exbind_ok] at h
      refine ⟨ns1, rfl, ?_⟩
      by_cases he1 : ns1.isEmpty
      · rw [he1] at h
        simp only [if_true] at h
        have he1' : ns1 = [] := List.isEmpty_iff.mp he1
        cases h2 : stepsCanonical l with
        | error e => rw [h2] at h; simp at h
        | ok ns2 =>
            rw [h2] at h
            simp only [exbind_ok] at h
            refine Or.inl ⟨he1', ns2, rfl, ?_⟩
            by_cases he2 : ns2.isEmpty
            · rw [he2] at h
              simp only [if_true] at h
              exact Or.inl ⟨List.isEmpty_iff.mp he2, h⟩
            · rw [Bool.not_eq_true] at he2
              rw [he2] at h
              simp only [Bool.false_eq_true, if_false] at h
              simp at h
              exact Or.inr ⟨fun hh => by simp [hh] at he2, h.symm⟩
      · rw [Bool.not_eq_true] at he1
        rw [he1] at h
        simp only [Bool.false_eq_true, if_false] at h
        simp at h
        cases h2 : stepsCanonical l with
        | error e =>
            exact Or.inr ⟨fun hh => by simp [hh] at he1, h.symm⟩
        | ok ns2 =>
            exact Or.inr ⟨fun hh => by simp [hh] at he1, h.symm⟩

/-- Inversion of the shared tail of `normalizeData` (map building,
back-fill, coverage read, record construction). -/
theorem normTail_inv {data : Json} {ns tasksJ : List Json} {out : NormOut}
    {goalVal : Json}
    (h : (do
        let m ← buildToolTaskMap tasksJ []
        let steps ← backfillSteps tasksJ m ns
        let cov ← pyGetD data "coverage_notes" Json.null
        pure { original_goal := goalVal, tasks := tasksJ, steps := steps,
               coverage_notes := cov } : Except PyErr NormOut) = .ok out) :
    ∃ m, out.tasks = tasksJ ∧ buildToolTaskMap tasksJ [] = .ok m ∧
      backfillSteps tasksJ m ns = .ok out.steps ∧
      pyGetD data "coverage_notes" .null = .ok out.coverage_notes ∧
      out.original_goal = goalVal := by
  cases h9 : buildToolTaskMap tasksJ [] with
  | error e => rw [h9] at h; simp at h
  | ok m =>
  rw [h9] at h
  simp only [exbind_ok] at h
  cases h10 : backfillSteps tasksJ m ns with
  | error e => rw [h10] at h; simp at h
  | ok steps =>
  rw [h10] at h
  simp only [exbind_ok] at h
  cases h11 : pyGetD data "coverage_notes" .null with
  | error e => rw [h11] at h; simp at h
  | ok cov =>
  rw [h11] at h
  simp only [exbind_ok, expure_eq, Except.ok.injEq] at h
  subst h
  exact ⟨m, rfl, rfl, h10, rfl, rfl⟩

/-- Full inversion of `normalizeData` on success. -/
theorem normalizeData_inv {data0 : Json} {out : NormOut}
    (h : normalizeData data0 = .ok out) :
    ∃ data og1 og2 tasksVal stepsVal stepsList ns m,
      unwrapPlan data0 = .ok data ∧
      pyGetD data "original_goal" .null = .ok og1 ∧
      pyGetD data "goal" .null = .ok og2 ∧
      pyGetD data "tasks" (.arr []) = .ok tasksVal ∧
      pyGetD data "steps" (.arr []) = .ok stepsVal ∧
      pyIter stepsVal = .ok stepsList ∧
      resolveSteps stepsList = .ok ns ∧
      ns.isEmpty = false ∧
      (if !tasksVal.truthy then synthAux ns [] [] else pyIter tasksVal) = .ok out.tasks ∧
      buildToolTaskMap out.tasks [] = .ok m ∧
      backfillSteps out.tasks m ns = .ok out.steps ∧
      pyGetD data "coverage_notes" .null = .ok out.coverage_notes ∧
      out.original_goal =
        (if og1.truthy then og1 else if og2.truthy then og2 else .str "") := by
  simp only [normalizeData] at h
  cases h1 : unwrapPlan data0 with
  | error e => rw [h1] at h; simp at h
  | ok data =>
  rw [h1] at h
  simp only [exbind_ok] at h
  cases h2 : pyGetD data "original_goal" .null with
  | error e => rw [h2] at h; simp at h
  | ok og1 =>
  rw [h2] at h
  simp only [exbind_ok] at h
  cases h3 : pyGetD data "goal" .null with
  | error e => rw [h3] at h; simp at h
  | ok og2 =>
  rw [h3] at h
  simp only [exbind_ok] at h
  cases h4 : pyGetD data "tasks" (.arr []) with
  | error e => rw [h4] at h; simp at h
  | ok tasksVal =>
  rw [h4] at h
  simp only [exbind_ok] at h
  cases h5 : pyGetD data "steps" (.arr []) with
  | error e => rw [h5] at h; simp at h
  | ok stepsVal =>
  rw [h5] at h
  simp only [exbind_ok] at h
  cases h6 : pyIter stepsVal with
  | error e => rw [h6] at h; simp at h
  | ok stepsList =>
  rw [h6] at h
  simp only [exbind_ok] at h
  cases h7 : resolveSteps stepsList with
  | error e => rw [h7] at h; simp at h
  | ok ns =>
  rw [h7] at h
  simp only [exbind_ok] at h
  by_cases hne : ns.isEmpty
  · rw [hne] at h
    simp at h
  · rw [Bool.not_eq_true] at hne
    rw [hne] at h
    simp only [Bool.false_eq_true, if_false] at h
    by_cases htv : (!tasksVal.truthy) = true
    · rw [if_pos htv] at h
      cases h8 : synthAux ns [] [] with
      | error e => rw [h8] at h; simp at h
      | ok tasksJ =>
          rw [h8] at h
          simp only [exbind_ok] at h
          obtain ⟨m, hout, h9, h10, h11, hgoal⟩ := normTail_inv h
          refine ⟨data, og1, og2, tasksVal, stepsVal, stepsList, ns, m,
            rfl, h2, h3, h4, h5, h6, h7, hne, ?_, ?_, ?_, h11, hgoal⟩
          · rw [if_pos htv, hout]; exact h8
          · rw [hout]; exact h9
          · rw [hout]; exact h10
    · rw [if_neg htv] at h
      cases h8 : pyIter tasksVal with
      | error e => rw [h8] at h; simp at h
      | ok tasksJ =>
          rw [h8] at h
          simp only [exbind_ok] at h
          obtain ⟨m, hout, h9, h10, h11, hgoal⟩ := normTail_inv h
          refine ⟨data, og1, og2, tasksVal, stepsVal, stepsList, ns, m,
            rfl, h2, h3, h4, h5, h6, h7, hne, ?_, ?_, ?_, h11, hgoal⟩
          · rw [if_neg htv, hout]; exact h8
          · rw [hout]; exact h9
          · rw [hout]; exact h10

/-- The back-fill of a single step never changes its `tool` entry. -/
theorem backfillOne_tool {tasks : List Json} {m : List (Json × Json)} {s out : Json}
    (h : backfillOne tasks m s = .ok out) : pyGetKey out "tool" = pyGetKey s "tool" := by
  simp only [backfillOne] at h
  cases hcur : pyGetD s "task_id" .null with
  | error e => rw [hcur] at h; simp at h
  | ok cur =>
      rw [hcur] at h
      simp only [exbind_ok] at h
      by_cases ht : cur.truthy
      · rw [ht] at h
        simp at h
        rw [← h]
      · rw [Bool.not_eq_true] at ht
        obtain ⟨toolV, t0, defId, _, _, _, _, hout⟩ :=
          backfillOne_falsy (by simp only [backfillOne, hcur, exbind_ok]; exact h) hcur ht
        rw [hout, pyGetKey_pySetKey_taskid_tool]

theorem mapLookup_some_mem {m : List (Json × Json)} {k w : Json}
    (h : mapLookup m k = some w) : ∃ kv ∈ m, kv.2 = w := by
  simp only [mapLookup, Option.map_eq_some'] at h
  obtain ⟨kv, hfind, hw⟩ := h
  exact ⟨kv, List.mem_of_find?_eq_some hfind, hw⟩

/-- Iterating a truthy value yields a non-empty list. -/
theorem pyIter_truthy_ne_nil {v : Json} {l : List Json}
    (ht : v.truthy = true) (h : pyIter v = .ok l) : l ≠ [] := by
  cases v with
  | arr xs =>
      simp only [pyIter, Except.ok.injEq] at h
      subst h
      simp only [Json.truthy, Bool.not_eq_true'] at ht
      exact List.isEmpty_eq_false.mp ht
  | str s =>
      simp only [pyIter, Except.ok.injEq] at h
      subst h
      simp only [Json.truthy, decide_eq_true_eq] at ht
      intro hc
      rw [List.map_eq_nil_iff] at hc
      exact ht (by cases s; simp_all [String.toList])
  | obj e =>
      simp only [pyIter, Except.ok.injEq] at h
      subst h
      simp only [Json.truthy, Bool.not_eq_true'] at ht
      intro hc
      rw [List.map_eq_nil_iff] at hc
      rw [hc] at ht
      simp at ht
  | null => simp [pyIter] at h
  | bool b => simp [pyIter] at h
  | int n => simp [pyIter] at h
  | float q => simp [pyIter] at h

/-- A task whose suggestion list is non-empty has a readable id whenever the
map building succeeded. -/
theorem buildToolTaskMap_id_ok :
    ∀ (tasks : List Json) (m0 m : List (Json × Json)),
      buildToolTaskMap tasks m0 = .ok m →
      ∀ t ∈ tasks, ∀ (l : List Json), sugListOf t = some l → l ≠ [] →
        ∃ tid, pyGetKey t "id" = .ok tid := by
  intro tasks
  induction tasks with
  | nil => intro m0 m h t ht; simp at ht
  | cons t0 rest ih =>
      intro m0 m h t ht l hsl hl
      simp only [buildToolTaskMap] at h
      cases hsug : pyGetD t0 "suggested_tools" (.arr []) with
      | error e => rw [hsug] at h; simp at h
      | ok sv =>
          rw [hsug] at h
          simp only [exbind_ok] at h
          cases hit : pyIter sv with
          | error e => rw [hit] at h; simp at h
          | ok tools =>
              rw [hit] at h
              simp only [exbind_ok] at h
              cases hft : foldTools t0 tools m0 with
              | error e => rw [hft] at h; simp at h
              | ok m1 =>
                  rw [hft] at h
                  simp only [exbind_ok] at h
                  rcases List.mem_cons.mp ht with rfl | ht2
                  · have : l = tools := by
                      simp [sugListOf, hsug, hit] at hsl
                      exact hsl.symm
                    subst this
                    cases l with
                    | nil => exact absurd rfl hl
                    | cons x xs => exact foldTools_first_id hft
                  · exact ih m1 m h t ht2 l hsl hl

/-- A successfully built validation report passed the `Literal` status
check: the read status value is one of the three enum strings. -/
theorem buildReport_ok_status {data : Json} {r : ValidationReport}
    (h : buildReport data = .ok r) :
    ∃ sv, pyGetD data "status" (.str "failed") = .ok sv ∧
      (sv = .str "ok" ∨ sv = .str "needs_revision" ∨ sv = .str "failed") := by
  simp only [buildReport] at h
  cases h1 : pyGetD data "goal" (.str "") with
  | error e => rw [h1] at h; simp at h
  | ok goalV =>
  rw [h1] at h
  simp only [exbind_ok] at h
  cases h2 : pyGetD data "plan_task_count" (.int 0) with
  | error e => rw [h2] at h; simp at h
  | ok ptcV =>
  rw [h2] at h
  simp only [exbind_ok] at h
  cases h3 : pyGetD data "executed_task_ids" (.arr []) with
  | error e => rw [h3] at h; simp at h
  | ok exV =>
  rw [h3] at h
  simp only [exbind_ok] at h
  cases h4 : pyGetD data "missing_task_ids" (.arr []) with
  | error e => rw [h4] at h; simp at h
  | ok miV =>
  rw [h4] at h
  simp only [exbind_ok] at h
  cases h5 : pyGetD data "extraneous_tasks" (.arr []) with
  | error e => rw [h5] at h; simp at h
  | ok etV =>
  rw [h5] at h
  simp only [exbind_ok] at h
  cases h6 : pyGetD data "adequacy_score" (.float 0) with
  | error e => rw [h6] at h; simp at h
  | ok adqV =>
  rw [h6] at h
  simp only [exbind_ok] at h
  cases h7 : pyFloat adqV with
  | error e => rw [h7] at h; simp at h
  | ok adq =>
  rw [h7] at h
  simp only [exbind_ok] at h
  cases h8 : pyGetD data "status" (.str "failed") with
  | error e => rw [h8] at h; simp at h
  | ok sv =>
  rw [h8] at h
  simp only [exbind_ok] at h
  cases h9 : pyGetD data "issues" (.arr []) with
  | error e => rw [h9] at h; simp at h
  | ok issV =>
  rw [h9] at h
  simp only [exbind_ok] at h
  cases h10 : pyIter issV with
  | error e => rw [h10] at h; simp at h
  | ok issL =>
  rw [h10] at h
  simp only [exbind_ok] at h
  cases h11 : mapE mkValidationIssue issL with
  | error e => rw [h11] at h; simp at h
  | ok issues =>
  rw [h11] at h
  simp only [exbind_ok] at h
  cases h12 : pyGetD data "summary" (.str "") with
  | error e => rw [h12] at h; simp at h
  | ok sumV =>
  rw [h12] at h
  simp only [exbind_ok] at h
  cases h13 : asStr goalV with
  | error e => rw [h13] at h; simp at h
  | ok goal =>
  rw [h13] at h
  simp only [exbind_ok] at h
  refine ⟨sv, rfl, ?_⟩
  cases ptcV <;> simp_all
  cases h14 : asStrList exV with
  | error e => rw [h14] at h; simp at h
  | ok ex =>
  rw [h14] at h
  simp only [exbind_ok] at h
  cases h15 : asStrList miV with
  | error e => rw [h15] at h; simp at h
  | ok mi =>
  rw [h15] at h
  simp only [exbind_ok] at h
  cases h16 : asStrList etV with
  | error e => rw [h16] at h; simp at h
  | ok et =>
  rw [h16] at h
  simp only [exbind_ok] at h
  cases sv with
  | str s =>
      by_cases hok : s = "ok"
      · exact Or.inl (by rw [hok])
      · by_cases hnr : s = "needs_revision"
        · exact Or.inr (Or.inl (by rw [hnr]))
        · by_cases hfl : s = "failed"
          · exact Or.inr (Or.inr (by rw [hfl]))
          · simp [hok, hnr, hfl] at h
  | null => simp at h
  | bool b => simp at h
  | int n => simp at h
  | float q => simp at h
  | arr a => simp at h
  | obj o => simp at h

/-- Elementwise right-inverse maps lift to the effectful map. -/
theorem mapE_map_ok {f : β → Except PyErr α} {g : α → β}
    (hfg : ∀ x : α, f (g x) = .ok x) :
    ∀ l : List α, mapE f (l.map g) = .ok l := by
  intro l
  induction l with
  | nil => simp [mapE]
  | cons x xs ih => simp [mapE, hfg x, ih]

theorem mapE_asStr_map (l : List String) : mapE asStr (l.map Json.str) = .ok l :=
  mapE_map_ok (f := asStr) (g := Json.str) (fun _ => rfl) l

/-- `AtomicTask(**t.dict())` reconstructs the task. -/
theorem mkAtomicTask_taskDict (t : AtomicTask) : mkAtomicTask (taskDict t) = .ok t := by
  obtain ⟨id, description, rationale, priority, suggested, reqSeq⟩ := t
  have hsug : asStrList (Json.arr (suggested.map Json.str)) = .ok suggested := by
    simp [asStrList, mapE_asStr_map]
  rcases rationale with _ | r <;> rcases priority with _ | p <;> try cases p
  all_goals
    simp [taskDict, mkAtomicTask, objLookup, asStr, asOptStr, optStrJson, priorityStr, hsug]

/-- `ExecutionStep(**s.dict())` reconstructs the step. -/
theorem mkExecutionStep_stepDict (s : ExecutionStep) :
    mkExecutionStep (stepDict s) = .ok s := by
  obtain ⟨order, task_id, tool, args, notes⟩ := s
  simp only [stepDict, mkExecutionStep, objLookup, asStr, asOptStr, optStrJson]
  cases notes <;> simp [asOptStr]

/-- Inversion of the top-level normalizer. -/
theorem normalize_ok_inv {raw : String} {out : NormOut}
    (h : normalize_decomposer_output raw = .ok out) :
    ∃ data, try_json_load (extract_json_block raw) = .ok data ∧
      normalizeData data = .ok out := by
  simp only [normalize_decomposer_output] at h
  cases hd : try_json_load (extract_json_block raw) with
  | error e => rw [hd] at h; simp at h
  | ok data =>
      rw [hd] at h
      simp only [exbind_ok] at h
      exact ⟨data, rfl, h⟩

/-- Python equality is reflexive on hashable values. -/
theorem pyEqH_refl {x : Json} (h : x.hashable = true) : pyEqH x x = true := by
  cases x <;> simp_all [Json.hashable, pyEqH, pyKey]

theorem pyMem_append (x : Json) (l1 l2 : List Json) :
    pyMem x (l1 ++ l2) = (pyMem x l1 || pyMem x l2) := by
  simp [pyMem, List.any_append]

theorem pyMem_singleton (x y : Json) : pyMem x [y] = pyEqH x y := by
  simp [pyMem]

/-- Elements kept by the deduplication were not among the already-seen. -/
theorem dedupPyEq_mem_not_seen :
    ∀ (l seen : List Json), ∀ x ∈ dedupPyEq seen l, pyMem x seen = false := by
  intro l
  induction l with
  | nil => intro seen x hx; simp [dedupPyEq] at hx
  | cons y ys ih =>
      intro seen x hx
      simp only [dedupPyEq] at hx
      by_cases hm : pyMem y seen = true
      · rw [if_pos hm] at hx
        exact ih seen x hx
      · rw [Bool.not_eq_true] at hm
        rw [hm] at hx
        simp only [Bool.false_eq_true, if_false] at hx
        rcases List.mem_cons.mp hx with rfl | hx
        · exact hm
        · have := ih (seen ++ [y]) x hx
          rw [pyMem_append] at this
          exact (Bool.or_eq_false_iff.mp this).1

/-- The deduplicated tools form a sublist of the original list: first
appearances keep their relative order. -/
theorem dedupPyEq_sublist :
    ∀ (l seen : List Json), (dedupPyEq seen l).Sublist l := by
  intro l
  induction l with
  | nil => intro seen; simp [dedupPyEq]
  | cons y ys ih =>
      intro seen
      simp only [dedupPyEq]
      by_cases hm : pyMem y seen = true
      · rw [if_pos hm]
        exact (ih seen).cons y
      · rw [Bool.not_eq_true] at hm
        rw [hm]
        simp only [Bool.false_eq_true, if_false]
        exact (ih (seen ++ [y])).cons₂ y

/-- No two deduplicated tools are Python-equal: one task per distinct
tool. -/
theorem dedupPyEq_pairwise :
    ∀ (l seen : List Json),
      (dedupPyEq seen l).Pairwise (fun a b => pyEqH a b = false) := by
  intro l
  induction l with
  | nil => intro seen; simp [dedupPyEq]
  | cons y ys ih =>
      intro seen
      simp only [dedupPyEq]
      by_cases hm : pyMem y seen = true
      · rw [if_pos hm]; exact ih seen
      · rw [Bool.not_eq_true] at hm
        rw [hm]
        simp only [Bool.false_eq_true, if_false]
        refine List.Pairwise.cons ?_ (ih (seen ++ [y]))
        intro x hx
        have := dedupPyEq_mem_not_seen ys (seen ++ [y]) x hx
        rw [pyMem_append, pyMem_singleton] at this
        have hxy := (Bool.or_eq_false_iff.mp this).2
        rw [pyEqH_symm] at hxy
        exact hxy

/-- Every hashable tool of the list has a Python-equal representative
among the deduplicated tools, provided it was not already seen. -/
theorem dedupPyEq_covers :
    ∀ (l seen : List Json), ∀ x ∈ l, x.hashable = true → pyMem x seen = false →
      ∃ u ∈ dedupPyEq seen l, pyEqH u x = true := by
  intro l
  induction l with
  | nil => intro seen x hx; simp at hx
  | cons y ys ih =>
      intro seen x hx hh hns
      simp only [dedupPyEq]
      by_cases hm : pyMem y seen = true
      · rw [if_pos hm]
        rcases List.mem_cons.mp hx with rfl | hx2
        · rw [hns] at hm; exact absurd hm (by simp)
        · exact ih seen x hx2 hh hns
      · rw [Bool.not_eq_true] at hm
        rw [hm]
        simp only [Bool.false_eq_true, if_false]
        rcases List.mem_cons.mp hx with rfl | hx2
        · exact ⟨x, by simp, pyEqH_refl hh⟩
        · by_cases hny : pyMem x (seen ++ [y]) = true
          · rw [pyMem_append, pyMem_singleton] at hny
            rw [hns] at hny
            simp only [Bool.false_or] at hny
            refine ⟨y, by simp, ?_⟩
            rw [pyEqH_symm]
            exact hny
          · rw [Bool.not_eq_true] at hny
            obtain ⟨u, hu, hux⟩ := ih (seen ++ [y]) x hx2 hh hny
            exact ⟨u, by simp [hu], hux⟩

theorem mkSynthFrom_length :
    ∀ (l : List Json) (k : Nat), (mkSynthFrom k l).length = l.length := by
  intro l
  induction l with
  | nil => intro k; simp [mkSynthFrom]
  | cons x xs ih => intro k; simp [mkSynthFrom, ih]

/-- The `i`-th synthesized task is built from the `i`-th distinct tool
with ordinal `k + i`. -/
theorem mkSynthFrom_get :
    ∀ (l : List Json) (k i : Nat) (hi : i < l.length)
      (hi2 : i < (mkSynthFrom k l).length),
      (mkSynthFrom k l).get ⟨i, hi2⟩ = mkSynthTask (k + i) (l.get ⟨i, hi⟩) := by
  intro l
  induction l with
  | nil => intro k i hi; exact absurd hi (by simp)
  | cons x xs ih =>
      intro k i hi hi2
      cases i with
      | zero => simp [mkSynthFrom]
      | succ j =>
          simp only [mkSynthFrom, List.get]
          rw [ih (k + 1) j (by simpa using hi) (by simpa [mkSynthFrom] using hi2)]
          congr 1
          omega

/-- Forward membership through the effectful map. -/
theorem mapE_fwd_mem {f : α → Except PyErr β} :
    ∀ {l : List α} {out : List β}, mapE f l = .ok out →
      ∀ a ∈ l, ∃ b ∈ out, f a = .ok b := by
  intro l
  induction l with
  | nil => intro out h a ha; simp at ha
  | cons x xs ih =>
      intro out h a ha
      simp only [mapE] at h
      cases hf : f x with
      | error e => rw [hf] at h; simp at h
      | ok b0 =>
          rw [hf] at h
          cases hm : mapE f xs with
          | error e => rw [hm] at h; simp at h
          | ok bs =>
              rw [hm] at h
              simp at h
              subst h
              rcases List.mem_cons.mp ha with rfl | ha2
              · exact ⟨b0, by simp, hf⟩
              · obtain ⟨b, hb, hfb⟩ := ih hm a ha2
                exact ⟨b, by simp [hb], hfb⟩

/-- The snippet operation truncates at the requested length. -/
theorem strTake_length_le (s : String) (n : Nat) : (strTake s n).length ≤ n := by
  simp only [strTake, String.length]
  exact List.length_take_le n s.toList

/-- The tool registration established by the canonical and heuristic
branches survives step resolution when the actions branch was empty. -/
theorem resolveSteps_tool_of_no_actions {stepsList ns : List Json}
    (hres : resolveSteps stepsList = .ok ns)
    (hact : stepsFromActions stepsList [] = .ok []) :
    ∀ s ∈ ns, ∃ t, pyGetKey s "tool" = .ok (.str t) ∧
      allowedTools.contains t = true := by
  obtain ⟨ns1, hns1, hrest⟩ := resolveSteps_inv hres
  rw [hact] at hns1
  have hns1e : ns1 = [] := by
    injection hns1 with h
    exact h.symm
  rcases hrest with ⟨_, ns2, hns2, hcase⟩ | ⟨hne, _⟩
  · rcases hcase with ⟨hns2e, hheur⟩ | ⟨hns2ne, hns⟩
    · simp only [_heuristic_from_step_shape] at hheur
      exact heuristicAux_tool stepsList 1 ns hheur
    · rw [hns]
      exact stepsCanonical_tool stepsList ns2 hns2
  · exact absurd hns1e hne

/-! ## The claims -/

/-- C2 (counterexample): Scenario A's raw text — with the heuristic step
under the `tasks` key, exactly as written in the spec — does not normalize
to a plan at all: the normalizer reads steps only from the `steps` key,
finds none, and raises. -/
theorem scenario_a_as_written_raises :
    normalize_decomposer_output
      "\x7b\"tasks\":[\x7b\"task\":\"Summarize this email\",\"input\":\"Email: hello world\"\x7d]\x7d" =
      .error PyErr.noSteps := rfl

/-- C2 (amended): with the heuristic step under the `steps` key, the raw
text of Scenario A normalizes exactly as the scenario describes: one
synthesized summarization task `t1`, one step with tool `summarize_email`,
`args` carrying the cleaned text `"hello world"` under `email_text`, and
`order = 1`. -/
theorem scenario_a_steps_key_normalizes :
    normalize_decomposer_output
      "\x7b\"steps\":[\x7b\"task\":\"Summarize this email\",\"input\":\"Email: hello world\"\x7d]\x7d" =
      .ok scenarioAOut := rfl

/-- C7: the raw validation text `{"status":"ok"}` parses with every field
at its documented default: `goal = ""`, `plan_task_count = 0`, all list
fields empty, `adequacy_score = 0.0`, `status = ok`, `summary = ""`. -/
theorem scenario_b_defaults :
    parse_validation (.str "\x7b\"status\":\"ok\"\x7d") =
      .ok ⟨"", 0, [], [], [], 0, VStatus.ok, [], ""⟩ := rfl

/-- C3 (counterexample): a heuristic-shape step whose task text matches no
keyword pattern and contains no "task" is NOT skipped: normalizing it
succeeds and emits the step with the default tool `process_email` (were
the step skipped, this input would have no steps at all and normalization
would raise). -/
theorem unmatched_heuristic_step_emitted_counterexample :
    normalize_decomposer_output "\x7b\"steps\":[\x7b\"task\":\"hello world\",\"input\":\"x\"\x7d]\x7d" =
      .ok { original_goal := .str ""
          , tasks := [Json.obj
              [("id", .str "t1"), ("description", .str "Execute process_email"),
               ("rationale", .str "Derived from decomposed step"),
               ("priority", .str "medium"),
               ("suggested_tools", .arr [.str "process_email"]),
               ("requires_sequential", .bool false)]]
          , steps := [Json.obj
              [("order", .int 1), ("task_id", .str "t1"), ("tool", .str "process_email"),
               ("args", .obj [("email_text", .str "x")]),
               ("notes", .str "hello world")]]
          , coverage_notes := .null } := rfl

/-- C3 (amended): when no tool is inferred from a heuristic-shape step's
task text, the code substitutes the default `process_email` — which is
registered — so the step is emitted with that tool rather than skipped
(a skip would require the substituted tool to be unregistered, which never
happens). -/
theorem unmatched_heuristic_step_defaults_to_process_email
    (taskText inputText : String)
    (hinfer : _infer_tool_from_task_text taskText = none) :
    _heuristic_from_step_shape
        [Json.obj [("task", .str taskText), ("input", .str inputText)]] =
      .ok [Json.obj [("order", .int 1), ("task_id", .null),
        ("tool", .str "process_email"),
        ("args", .obj [("email_text", .str (_clean_email_input inputText))]),
        ("notes", .str taskText)]] := by
  simp [_heuristic_from_step_shape, heuristicAux, objLookup, hinfer, allowedTools,
    emailTextToolsHeuristic, pyStr, mapE]

/-- Witness for C3's amended theorem at the concrete task text
`"hello world"` (no pattern, no "task") and input `"x"`. -/
theorem unmatched_heuristic_step_defaults_to_process_email_witness :
    _heuristic_from_step_shape
        [Json.obj [("task", .str "hello world"), ("input", .str "x")]] =
      .ok [Json.obj [("order", .int 1), ("task_id", .null),
        ("tool", .str "process_email"),
        ("args", .obj [("email_text", .str (_clean_email_input "x"))]),
        ("notes", .str "hello world")]] :=
  unmatched_heuristic_step_defaults_to_process_email "hello world" "x" (by rfl)

/-- C4 (counterexample): a validation text whose `status` is outside the
three-value enum is NOT accepted verbatim: the report constructor's
`Literal` check rejects it and `parse_validation` fails. -/
theorem out_of_enum_status_rejected_counterexample :
    parse_validation (.str "\x7b\"status\": \"maybe\"\x7d") = .error PyErr.validation := rfl

/-- C4 (amended): for every raw validation text that decodes to a mapping
whose `status` value is a string outside `{ok, needs_revision, failed}`,
`parse_validation` fails (the pydantic `Literal` annotation on
`ValidationReport.status` rejects the value), rather than accepting the
status verbatim. -/
theorem out_of_enum_status_parse_fails
    (raw : String) (entries : List (String × Json)) (st : String)
    (hdec : (match jsonLoads (_strip_markdown_fences raw) with
             | some d => some d
             | none => literalEval (_strip_markdown_fences raw)) =
            some (Json.obj entries))
    (hst : objLookup entries "status" = some (.str st))
    (h1 : st ≠ "ok") (h2 : st ≠ "needs_revision") (h3 : st ≠ "failed") :
    parse_validation (.str raw) = .error PyErr.validation := by
  have hbrE : ∀ r, buildReport (Json.obj entries) ≠ .ok r := by
    intro r hbr
    obtain ⟨sv, hsv, henum⟩ := buildReport_ok_status hbr
    simp [pyGetD, hst] at hsv
    rcases henum with he | he | he <;> rw [← hsv] at he <;>
      simp only [Json.str.injEq] at he
    · exact absurd he h1
    · exact absurd he h2
    · exact absurd he h3
  have hfin : ∀ d : Json, d = Json.obj entries →
      (match buildReport d with
       | .ok r => (.ok r : Except PyErr ValidationReport)
       | .error _ => .error .validation) = .error .validation := by
    intro d hd; subst hd
    cases hbr : buildReport (Json.obj entries) with
    | error e => rfl
    | ok r => exact absurd hbr (hbrE r)
  simp only [parse_validation]
  cases hj : jsonLoads (_strip_markdown_fences raw) with
  | some d =>
      rw [hj] at hdec
      simp only [Option.some.injEq] at hdec
      simp only [hj, exbind_ok]
      exact hfin d hdec
  | none =>
      rw [hj] at hdec
      simp only at hdec
      simp only [hj, hdec, exbind_ok]
      exact hfin (Json.obj entries) rfl

/-- Witness for C4's amended theorem: a fenced validation text (both the
opening fence and the fence on the later line are removed by the
MULTILINE stripping) with the out-of-enum status `"maybe"` makes
`parse_validation` fail. -/
theorem out_of_enum_status_parse_fails_witness :
    parse_validation
        (.str "```json\n\x7b\"status\":\"maybe\"\x7d\n```json") =
      .error PyErr.validation :=
  out_of_enum_status_parse_fails
    "```json\n\x7b\"status\":\"maybe\"\x7d\n```json"
    [("status", .str "maybe")] "maybe" (by rfl) (by rfl)
    (by decide) (by decide) (by decide)

/-- C1 (counterexample): the invariants are not both established for the
two shapes the claim singles out. A nested-actions step whose action
names the unregistered tool `frobnicate` is emitted with that tool (the
actions branch performs no `ALLOWED_TOOLS` check), and a canonical step
that already carries the task_id `zzz` keeps it even though no returned
task has that id. -/
theorem nested_action_and_carried_taskid_counterexample :
    normalize_decomposer_output rawFrob = .ok
      ⟨.str "",
       [.obj [("id", .str "t1"), ("description", .str "Execute frobnicate"),
              ("rationale", .str "Derived from decomposed step"),
              ("priority", .str "medium"),
              ("suggested_tools", .arr [.str "frobnicate"]),
              ("requires_sequential", .bool false)]],
       [.obj [("order", .int 1), ("task_id", .str "t1"),
              ("tool", .str "frobnicate"), ("args", .obj []),
              ("notes", .str "d")]],
       .null⟩ ∧
    pyGetKey (.obj [("order", .int 1), ("task_id", .str "t1"),
        ("tool", .str "frobnicate"), ("args", .obj []),
        ("notes", .str "d")]) "tool" = .ok (.str "frobnicate") ∧
    allowedTools.contains "frobnicate" = false ∧
    normalize_decomposer_output rawZzz = .ok
      ⟨.str "",
       [.obj [("id", .str "t1"),
              ("suggested_tools", .arr [.str "summarize_email"])]],
       [.obj [("order", .int 1), ("tool", .str "summarize_email"),
              ("task_id", .str "zzz")]],
       .null⟩ ∧
    pyGetKey (.obj [("order", .int 1), ("tool", .str "summarize_email"),
        ("task_id", .str "zzz")]) "task_id" = .ok (.str "zzz") ∧
    pyGetKey (.obj [("id", .str "t1"),
        ("suggested_tools", .arr [.str "summarize_email"])]) "id" =
      .ok (.str "t1") :=
  ⟨rfl, rfl, rfl, rfl, rfl, rfl⟩

/-- C1 (amended): the invariants the normalizer does establish. On every
success, (a) whenever the actions branch contributed nothing, every
returned step's tool is registered (the canonical and heuristic branches
check or substitute registered tools — steps from the nested-actions
branch are exempt from any check), and (b) every resolved step whose
task_id was missing or falsy ends up carrying the id of some returned
task (steps that already carried a truthy task_id are left unchecked). -/
theorem normalize_partial_step_invariants (raw : String) (out : NormOut)
    (h : normalize_decomposer_output raw = .ok out) :
    ∃ data0 data stepsVal stepsList ns m,
      try_json_load (extract_json_block raw) = .ok data0 ∧
      unwrapPlan data0 = .ok data ∧
      pyGetD data "steps" (.arr []) = .ok stepsVal ∧
      pyIter stepsVal = .ok stepsList ∧
      resolveSteps stepsList = .ok ns ∧
      buildToolTaskMap out.tasks [] = .ok m ∧
      backfillSteps out.tasks m ns = .ok out.steps ∧
      (stepsFromActions stepsList [] = .ok [] →
        ∀ s2 ∈ out.steps, ∃ t, pyGetKey s2 "tool" = .ok (.str t) ∧
          allowedTools.contains t = true) ∧
      (∀ s ∈ ns, ∀ cur, pyGetD s "task_id" .null = .ok cur →
        cur.truthy = false →
        ∃ s2 tid, backfillOne out.tasks m s = .ok s2 ∧ s2 ∈ out.steps ∧
          pyGetKey s2 "task_id" = .ok tid ∧
          ∃ t ∈ out.tasks, pyGetKey t "id" = .ok tid) := by
  obtain ⟨data0, hload, hnorm⟩ := normalize_ok_inv h
  obtain ⟨data, og1, og2, tasksVal, stepsVal, stepsList, ns, m, hunwrap, hog1,
    hog2, htasks, hstepsv, hiter, hres, hne, htasksout, hmap, hbf, hcov,
    hgoal⟩ := normalizeData_inv hnorm
  have hbf' : mapE (backfillOne out.tasks m) ns = .ok out.steps := hbf
  refine ⟨data0, data, stepsVal, stepsList, ns, m, hload, hunwrap, hstepsv,
    hiter, hres, hmap, hbf, ?_, ?_⟩
  · intro hact s2 hs2
    obtain ⟨s, hsmem, hbo⟩ := mapE_mem_of_ok hbf' s2 hs2
    obtain ⟨t, htool, hreg⟩ := resolveSteps_tool_of_no_actions hres hact s hsmem
    have heq := backfillOne_tool hbo
    exact ⟨t, by rw [heq]; exact htool, hreg⟩
  · intro s hsns cur hcur ht
    obtain ⟨s2, hs2mem, hbo⟩ := mapE_fwd_mem hbf' s hsns
    obtain ⟨toolV, t0, defId, htool, hhead, hdef, hhash, hout⟩ :=
      backfillOne_falsy hbo hcur ht
    obtain ⟨e, hse⟩ := pyGetD_ok_obj hcur
    subst hse
    refine ⟨s2, (mapLookup m toolV).getD defId, hbo, hs2mem, ?_, ?_⟩
    · rw [hout]
      exact pyGetKey_pySetKey_self "task_id" _
    · cases hml : mapLookup m toolV with
      | some w =>
          obtain ⟨kv, hkvm, hkvw⟩ := mapLookup_some_mem hml
          rcases buildToolTaskMap_mem out.tasks [] m hmap kv hkvm with
            hin | ⟨t, htmem, hid⟩
          · simp at hin
          · refine ⟨t, htmem, ?_⟩
            simpa [hkvw] using hid
      | none =>
          have ht0mem : t0 ∈ out.tasks := by
            cases lt : out.tasks with
            | nil => rw [lt] at hhead; simp at hhead
            | cons a as =>
                rw [lt] at hhead
                simp only [List.head?_cons, Option.some.injEq] at hhead
                subst hhead
                simp
          refine ⟨t0, ht0mem, ?_⟩
          simpa using hdef

/-- Witness for C1's amended theorem at the raw text `rawT9` (one task
`t9` suggesting `summarize_email`, one step without a task_id). -/
theorem normalize_partial_step_invariants_witness :
    ∃ data0 data stepsVal stepsList ns m,
      try_json_load (extract_json_block rawT9) = .ok data0 ∧
      unwrapPlan data0 = .ok data ∧
      pyGetD data "steps" (.arr []) = .ok stepsVal ∧
      pyIter stepsVal = .ok stepsList ∧
      resolveSteps stepsList = .ok ns ∧
      buildToolTaskMap (NormOut.tasks
        ⟨.str "",
         [.obj [("id", .str "t9"),
                ("suggested_tools", .arr [.str "summarize_email"])]],
         [.obj [("order", .int 1), ("tool", .str "summarize_email"),
                ("task_id", .str "t9")]],
         .null⟩) [] = .ok m ∧
      backfillSteps (NormOut.tasks
        ⟨.str "",
         [.obj [("id", .str "t9"),
                ("suggested_tools", .arr [.str "summarize_email"])]],
         [.obj [("order", .int 1), ("tool", .str "summarize_email"),
                ("task_id", .str "t9")]],
         .null⟩) m ns = .ok (NormOut.steps
        ⟨.str "",
         [.obj [("id", .str "t9"),
                ("suggested_tools", .arr [.str "summarize_email"])]],
         [.obj [("order", .int 1), ("tool", .str "summarize_email"),
                ("task_id", .str "t9")]],
         .null⟩) ∧
      (stepsFromActions stepsList [] = .ok [] →
        ∀ s2 ∈ (NormOut.steps
          ⟨.str "",
           [.obj [("id", .str "t9"),
                  ("suggested_tools", .arr [.str "summarize_email"])]],
           [.obj [("order", .int 1), ("tool", .str "summarize_email"),
                  ("task_id", .str "t9")]],
           .null⟩), ∃ t, pyGetKey s2 "tool" = .ok (.str t) ∧
            allowedTools.contains t = true) ∧
      (∀ s ∈ ns, ∀ cur, pyGetD s "task_id" .null = .ok cur →
        cur.truthy = false →
        ∃ s2 tid, backfillOne (NormOut.tasks
          ⟨.str "",
           [.obj [("id", .str "t9"),
                  ("suggested_tools", .arr [.str "summarize_email"])]],
           [.obj [("order", .int 1), ("tool", .str "summarize_email"),
                  ("task_id", .str "t9")]],
           .null⟩) m s = .ok s2 ∧ s2 ∈ (NormOut.steps
          ⟨.str "",
           [.obj [("id", .str "t9"),
                  ("suggested_tools", .arr [.str "summarize_email"])]],
           [.obj [("order", .int 1), ("tool", .str "summarize_email"),
                  ("task_id", .str "t9")]],
           .null⟩) ∧
          pyGetKey s2 "task_id" = .ok tid ∧
          ∃ t ∈ (NormOut.tasks
            ⟨.str "",
             [.obj [("id", .str "t9"),
                    ("suggested_tools", .arr [.str "summarize_email"])]],
             [.obj [("order", .int 1), ("tool", .str "summarize_email"),
                    ("task_id", .str "t9")]],
             .null⟩), pyGetKey t "id" = .ok tid) :=
  normalize_partial_step_invariants rawT9
    ⟨.str "",
     [.obj [("id", .str "t9"),
            ("suggested_tools", .arr [.str "summarize_email"])]],
     [.obj [("order", .int 1), ("tool", .str "summarize_email"),
            ("task_id", .str "t9")]],
     .null⟩ (by rfl)

/-- C5: a resolved step whose task_id was falsy is assigned the id of the
first task (in task-list order) whose suggested_tools contains the step's
tool, and the first task's id when no task suggests that tool. -/
theorem backfill_first_suggesting_task
    (tasks : List Json) (m : List (Json × Json)) (s out cur toolV : Json)
    (hm : buildToolTaskMap tasks [] = .ok m)
    (h : backfillOne tasks m s = .ok out)
    (hcur : pyGetD s "task_id" .null = .ok cur) (ht : cur.truthy = false)
    (htool : pyGetKey s "tool" = .ok toolV) :
    (∀ t tid, firstSuggestTask tasks toolV = some t →
      pyGetKey t "id" = .ok tid → out = pySetKey s "task_id" tid) ∧
    (firstSuggestTask tasks toolV = none →
      ∀ t0 defId, tasks.head? = some t0 → pyGetKey t0 "id" = .ok defId →
        out = pySetKey s "task_id" defId) := by
  obtain ⟨toolV2, t0, defId, htool2, hhead, hdef, hhash, hout⟩ :=
    backfillOne_falsy h hcur ht
  rw [htool] at htool2
  injection htool2 with he
  subst he
  have hlook := buildToolTaskMap_lookup toolV tasks [] m hm
  have hred : (match mapLookup ([] : List (Json × Json)) toolV with
      | some w => some w
      | none =>
          match firstSuggestTask tasks toolV with
          | some t => (pyGetKey t "id").toOption
          | none => none) =
      (match firstSuggestTask tasks toolV with
       | some t => (pyGetKey t "id").toOption
       | none => none) := rfl
  rw [hred] at hlook
  constructor
  · intro t tid hfirst hid
    rw [hfirst] at hlook
    rw [hout, hlook]
    simp [hid, Except.toOption]
  · intro hfirst t0' defId' hhead' hdef'
    rw [hfirst] at hlook
    rw [hhead] at hhead'
    injection hhead' with he0
    subst he0
    rw [hdef] at hdef'
    injection hdef' with he1
    subst he1
    rw [hout, hlook]
    simp

/-- Witness for C5 with two tasks: `ta` suggests `detect_tasks`, `tb`
suggests `summarize_email`; a step with tool `summarize_email` and null
task_id is assigned `tb`, the first (and only) suggesting task, not the
head task `ta`. -/
theorem backfill_first_suggesting_task_witness :
    (∀ t tid, firstSuggestTask
        [.obj [("id", .str "ta"), ("suggested_tools", .arr [.str "detect_tasks"])],
         .obj [("id", .str "tb"), ("suggested_tools", .arr [.str "summarize_email"])]]
        (.str "summarize_email") = some t →
      pyGetKey t "id" = .ok tid →
      Json.obj [("order", .int 1), ("task_id", .str "tb"),
        ("tool", .str "summarize_email")] =
        pySetKey (.obj [("order", .int 1), ("task_id", .null),
          ("tool", .str "summarize_email")]) "task_id" tid) ∧
    (firstSuggestTask
        [.obj [("id", .str "ta"), ("suggested_tools", .arr [.str "detect_tasks"])],
         .obj [("id", .str "tb"), ("suggested_tools", .arr [.str "summarize_email"])]]
        (.str "summarize_email") = none →
      ∀ t0 defId,
        ([.obj [("id", .str "ta"), ("suggested_tools", .arr [.str "detect_tasks"])],
          .obj [("id", .str "tb"), ("suggested_tools", .arr [.str "summarize_email"])]] :
          List Json).head? = some t0 →
        pyGetKey t0 "id" = .ok defId →
        Json.obj [("order", .int 1), ("task_id", .str "tb"),
          ("tool", .str "summarize_email")] =
          pySetKey (.obj [("order", .int 1), ("task_id", .null),
            ("tool", .str "summarize_email")]) "task_id" defId) :=
  backfill_first_suggesting_task
    [.obj [("id", .str "ta"), ("suggested_tools", .arr [.str "detect_tasks"])],
     .obj [("id", .str "tb"), ("suggested_tools", .arr [.str "summarize_email"])]]
    [(.str "detect_tasks", .str "ta"), (.str "summarize_email", .str "tb")]
    (.obj [("order", .int 1), ("task_id", .null),
      ("tool", .str "summarize_email")])
    (.obj [("order", .int 1), ("task_id", .str "tb"),
      ("tool", .str "summarize_email")])
    .null (.str "summarize_email")
    (by rfl) (by rfl) (by rfl) (by rfl) (by rfl)

/-- C6: when the decoded object's tasks entry is the (missing-or-empty)
empty list and step resolution succeeded, the returned tasks are exactly
one synthesized task per distinct step tool, in first-appearance order,
the `i`-th built from the `i`-th distinct tool with ordinal `i + 1`, id
`"t" + ordinal`, priority `"medium"`, and singleton suggested_tools. -/
theorem synthesis_one_task_per_distinct_tool
    (raw : String) (out : NormOut) (data0 data : Json)
    (h : normalize_decomposer_output raw = .ok out)
    (hload : try_json_load (extract_json_block raw) = .ok data0)
    (hunwrap : unwrapPlan data0 = .ok data)
    (htasks : pyGetD data "tasks" (.arr []) = .ok (.arr [])) :
    ∃ stepsVal stepsList ns tl,
      pyGetD data "steps" (.arr []) = .ok stepsVal ∧
      pyIter stepsVal = .ok stepsList ∧
      resolveSteps stepsList = .ok ns ∧
      mapE (fun s => pyGetKey s "tool") ns = .ok tl ∧
      out.tasks = mkSynthFrom 1 (dedupPyEq [] tl) ∧
      (dedupPyEq [] tl).Sublist tl ∧
      (dedupPyEq [] tl).Pairwise (fun a b => pyEqH a b = false) ∧
      (∀ tool ∈ tl, tool.hashable = true →
        ∃ u ∈ dedupPyEq [] tl, pyEqH u tool = true) ∧
      (∀ i (hi : i < (dedupPyEq [] tl).length)
        (hi2 : i < (mkSynthFrom 1 (dedupPyEq [] tl)).length),
        (mkSynthFrom 1 (dedupPyEq [] tl)).get ⟨i, hi2⟩ =
          mkSynthTask (1 + i) ((dedupPyEq [] tl).get ⟨i, hi⟩)) ∧
      (∀ i tool,
        pyGetKey (mkSynthTask i tool) "id" = .ok (.str ("t" ++ toString i)) ∧
        pyGetKey (mkSynthTask i tool) "priority" = .ok (.str "medium") ∧
        pyGetKey (mkSynthTask i tool) "suggested_tools" = .ok (.arr [tool])) := by
  obtain ⟨data0', hload', hnorm⟩ := normalize_ok_inv h
  rw [hload] at hload'
  injection hload' with hd0
  subst hd0
  obtain ⟨data', og1, og2, tasksVal, stepsVal, stepsList, ns, m, hunwrap', hog1,
    hog2, htasks', hstepsv, hiter, hres, hne, htasksout, hmap, hbf, hcov,
    hgoal⟩ := normalizeData_inv hnorm
  rw [hunwrap] at hunwrap'
  injection hunwrap' with hdd
  subst hdd
  rw [htasks] at htasks'
  injection htasks' with htve
  subst htve
  have hsyn : synthAux ns [] [] = .ok out.tasks := by
    simpa [Json.truthy] using htasksout
  obtain ⟨tl, htl, hout⟩ := synthAux_ok ns [] [] out.tasks hsyn
  have houteq : out.tasks = mkSynthFrom 1 (dedupPyEq [] tl) := by
    rw [hout, synthPure_eq]
    simp
  refine ⟨stepsVal, stepsList, ns, tl, hstepsv, hiter, hres, htl, houteq,
    dedupPyEq_sublist tl [], dedupPyEq_pairwise tl [], ?_, ?_, ?_⟩
  · intro tool htoolm hh
    exact dedupPyEq_covers tl [] tool htoolm hh rfl
  · intro i hi hi2
    exact mkSynthFrom_get (dedupPyEq [] tl) 1 i hi hi2
  · intro i tool
    refine ⟨?_, ?_, ?_⟩ <;> simp [mkSynthTask, pyGetKey, objLookup]

/-- Witness for C6 at a taskless raw text whose three steps use the tools
`summarize_email`, `detect_tasks`, `summarize_email`: two tasks are
synthesized, one per distinct tool. -/
theorem synthesis_one_task_per_distinct_tool_witness :
    ∃ stepsVal stepsList ns tl,
      pyGetD (.obj [("steps", .arr
        [.obj [("order", .int 1), ("tool", .str "summarize_email")],
         .obj [("order", .int 2), ("tool", .str "detect_tasks")],
         .obj [("order", .int 3), ("tool", .str "summarize_email")]])])
        "steps" (.arr []) = .ok stepsVal ∧
      pyIter stepsVal = .ok stepsList ∧
      resolveSteps stepsList = .ok ns ∧
      mapE (fun s => pyGetKey s "tool") ns = .ok tl ∧
      (NormOut.tasks
        ⟨.str "",
         [.obj [("id", .str "t1"),
                ("description", .str "Execute summarize_email"),
                ("rationale", .str "Derived from decomposed step"),
                ("priority", .str "medium"),
                ("suggested_tools", .arr [.str "summarize_email"]),
                ("requires_sequential", .bool false)],
          .obj [("id", .str "t2"),
                ("description", .str "Execute detect_tasks"),
                ("rationale", .str "Derived from decomposed step"),
                ("priority", .str "medium"),
                ("suggested_tools", .arr [.str "detect_tasks"]),
                ("requires_sequential", .bool false)]],
         [.obj [("order", .int 1), ("tool", .str "summarize_email"),
                ("task_id", .str "t1")],
          .obj [("order", .int 2), ("tool", .str "detect_tasks"),
                ("task_id", .str "t2")],
          .obj [("order", .int 3), ("tool", .str "summarize_email"),
                ("task_id", .str "t1")]],
         .null⟩) = mkSynthFrom 1 (dedupPyEq [] tl) ∧
      (dedupPyEq [] tl).Sublist tl ∧
      (dedupPyEq [] tl).Pairwise (fun a b => pyEqH a b = false) ∧
      (∀ tool ∈ tl, tool.hashable = true →
        ∃ u ∈ dedupPyEq [] tl, pyEqH u tool = true) ∧
      (∀ i (hi : i < (dedupPyEq [] tl).length)
        (hi2 : i < (mkSynthFrom 1 (dedupPyEq [] tl)).length),
        (mkSynthFrom 1 (dedupPyEq [] tl)).get ⟨i, hi2⟩ =
          mkSynthTask (1 + i) ((dedupPyEq [] tl).get ⟨i, hi⟩)) ∧
      (∀ i tool,
        pyGetKey (mkSynthTask i tool) "id" = .ok (.str ("t" ++ toString i)) ∧
        pyGetKey (mkSynthTask i tool) "priority" = .ok (.str "medium") ∧
        pyGetKey (mkSynthTask i tool) "suggested_tools" = .ok (.arr [tool])) :=
  synthesis_one_task_per_distinct_tool rawTwoTools
    ⟨.str "",
     [.obj [("id", .str "t1"),
            ("description", .str "Execute summarize_email"),
            ("rationale", .str "Derived from decomposed step"),
            ("priority", .str "medium"),
            ("suggested_tools", .arr [.str "summarize_email"]),
            ("requires_sequential", .bool false)],
      .obj [("id", .str "t2"),
            ("description", .str "Execute detect_tasks"),
            ("rationale", .str "Derived from decomposed step"),
            ("priority", .str "medium"),
            ("suggested_tools", .arr [.str "detect_tasks"]),
            ("requires_sequential", .bool false)]],
     [.obj [("order", .int 1), ("tool", .str "summarize_email"),
            ("task_id", .str "t1")],
      .obj [("order", .int 2), ("tool", .str "detect_tasks"),
            ("task_id", .str "t2")],
      .obj [("order", .int 3), ("tool", .str "summarize_email"),
            ("task_id", .str "t1")]],
     .null⟩
    (.obj [("steps", .arr
      [.obj [("order", .int 1), ("tool", .str "summarize_email")],
       .obj [("order", .int 2), ("tool", .str "detect_tasks")],
       .obj [("order", .int 3), ("tool", .str "summarize_email")]])])
    (.obj [("steps", .arr
      [.obj [("order", .int 1), ("tool", .str "summarize_email")],
       .obj [("order", .int 2), ("tool", .str "detect_tasks")],
       .obj [("order", .int 3), ("tool", .str "summarize_email")]])])
    (by rfl) (by rfl) (by rfl) (by rfl)

/-- C8: serializing a canonical plan (non-empty tasks with unique ids,
non-empty steps) to its canonical JSON shape and re-parsing succeeds via
the Direct strategy with an equal plan; an absent coverage_notes stays
absent since the whole record round-trips. -/
theorem plan_serialization_roundtrip (p : DecomposedPlan)
    (htasks : p.tasks ≠ []) (hsteps : p.steps ≠ [])
    (hids : (p.tasks.map AtomicTask.id).Nodup) :
    tryDirect (serializePlan p) = .ok p ∧
    parse_plan (.data (serializePlan p)) = .ok p := by
  obtain ⟨og, tasks, steps, cov⟩ := p
  simp only at htasks hsteps
  have hmt : mapE mkAtomicTask (tasks.map taskDict) = .ok tasks :=
    mapE_map_ok mkAtomicTask_taskDict tasks
  have hms : mapE mkExecutionStep (steps.map stepDict) = .ok steps :=
    mapE_map_ok mkExecutionStep_stepDict steps
  have hte : tasks.isEmpty = false := by
    rw [List.isEmpty_eq_false]
    exact htasks
  have hse : steps.isEmpty = false := by
    rw [List.isEmpty_eq_false]
    exact hsteps
  have harm : armBody (serializePlan ⟨og, tasks, steps, cov⟩) = .ok (some ⟨og, tasks, steps, cov⟩) := by
    cases cov with
    | none =>
        simp [serializePlan, armBody, hasAllKeys, pyIn, objLookup,
          buildTasksSteps, pyGetD, pyIter, hmt, hms, hte, hse, mkPlanOgCov,
          asStr, optStrJson]
    | some c =>
        simp [serializePlan, armBody, hasAllKeys, pyIn, objLookup,
          buildTasksSteps, pyGetD, pyIter, hmt, hms, hte, hse, mkPlanOgCov,
          asStr, optStrJson]
  constructor
  · simp [tryDirect, harm]
  · simp [parse_plan, tryDirect, harm]

/-- Witness for C8 at a one-task, one-step plan with no coverage_notes. -/
theorem plan_serialization_roundtrip_witness :
    tryDirect (serializePlan
      ⟨"g", [⟨"t1", "d", none, some .medium, ["summarize_email"], false⟩],
       [⟨1, "t1", "summarize_email", [("email_text", .str "x")], none⟩],
       none⟩) = .ok
      ⟨"g", [⟨"t1", "d", none, some .medium, ["summarize_email"], false⟩],
       [⟨1, "t1", "summarize_email", [("email_text", .str "x")], none⟩],
       none⟩ ∧
    parse_plan (.data (serializePlan
      ⟨"g", [⟨"t1", "d", none, some .medium, ["summarize_email"], false⟩],
       [⟨1, "t1", "summarize_email", [("email_text", .str "x")], none⟩],
       none⟩)) = .ok
      ⟨"g", [⟨"t1", "d", none, some .medium, ["summarize_email"], false⟩],
       [⟨1, "t1", "summarize_email", [("email_text", .str "x")], none⟩],
       none⟩ :=
  plan_serialization_roundtrip
    ⟨"g", [⟨"t1", "d", none, some .medium, ["summarize_email"], false⟩],
     [⟨1, "t1", "summarize_email", [("email_text", .str "x")], none⟩],
     none⟩ (by simp) (by simp) (by simp)

set_option maxHeartbeats 400000000 in
/-- C9 (counterexample): the snippet bound is 1000 characters, not
approximately 800: a 1003-character decodable input on which all three
strategies fail yields an all-failed error whose snippet is the full
1000-character prefix — longer than 800. -/
theorem snippet_exceeds_800_counterexample :
    parse_plan (.str numsRaw) =
      .error (.allFailed (.exc .attrError) (strTake numsRaw 1000)) ∧
    (strTake numsRaw 1000).length = 1000 ∧
    numsRaw.length = 1003 :=
  ⟨rfl, rfl, rfl⟩

/-- C9 (amended): when all three strategies fail, the failure carries the
last underlying cause (the exception of the final normalize strategy) and
the `[:1000]` prefix of the raw input — bounded at 1000 characters, never
the unbounded payload. -/
theorem parse_plan_failure_snippet_bound (raw : String) (c : PlanCause)
    (snip : String)
    (h : parse_plan (.str raw) = .error (.allFailed c snip)) :
    snip = strTake raw 1000 ∧ snip.length ≤ 1000 ∧ ∃ e, c = .exc e := by
  simp only [parse_plan, rawToStr] at h
  cases hd : (match jsonLoads (_strip_markdown_fences raw) with
              | some d => some d
              | none => literalEval (_strip_markdown_fences raw)) with
  | none =>
      rw [hd] at h
      simp at h
  | some data =>
      rw [hd] at h
      simp only at h
      cases htd : tryDirect data with
      | ok p => rw [htd] at h; simp at h
      | error c1 =>
          rw [htd] at h
          simp only at h
          cases htu : tryUnwrap data with
          | mk r2 data2 =>
              rw [htu] at h
              cases r2 with
              | ok p => simp at h
              | error c2 =>
                  simp only at h
                  cases hnf : normalizeFallback data2 with
                  | ok p => rw [hnf] at h; simp at h
                  | error e =>
                      rw [hnf] at h
                      simp only [Except.error.injEq,
                        PlanFail.allFailed.injEq] at h
                      obtain ⟨hc, hs⟩ := h
                      refine ⟨hs.symm, ?_, e, hc.symm⟩
                      rw [← hs]
                      exact strTake_length_le raw 1000

/-- Witness for C9's amended theorem at a short fenced input whose
stripped body `[1,1,1]` decodes but defeats every strategy: the snippet
is the `[:1000]` prefix of the original raw text, fences included. -/
theorem parse_plan_failure_snippet_bound_witness :
    "```json\n[1,1,1]\n```json" = strTake "```json\n[1,1,1]\n```json" 1000 ∧
    ("```json\n[1,1,1]\n```json" : String).length ≤ 1000 ∧
    ∃ e, PlanCause.exc PyErr.attrError = PlanCause.exc e :=
  parse_plan_failure_snippet_bound "```json\n[1,1,1]\n```json"
    (.exc .attrError) "```json\n[1,1,1]\n```json" (by rfl)

/-- C10 (counterexample): a returned step can carry a null task_id: when
the only task's id is null, the back-fill assigns that null id to the
step, and the normalizer returns it. -/
theorem null_task_id_counterexample :
    normalize_decomposer_output rawNullId = .ok
      ⟨.str "",
       [.obj [("id", .null),
              ("suggested_tools", .arr [.str "summarize_email"])]],
       [.obj [("order", .int 1), ("tool", .str "summarize_email"),
              ("task_id", .null)]],
       .null⟩ ∧
    pyGetKey (.obj [("order", .int 1), ("tool", .str "summarize_email"),
        ("task_id", .null)]) "task_id" = .ok .null :=
  ⟨rfl, rfl⟩

/-- C10 (amended): on every success of the normalizer the returned tasks
list and steps list are non-empty; the non-null-task_id part of the
original claim fails (see the counterexample). -/
theorem normalize_output_nonempty (raw : String) (out : NormOut)
    (h : normalize_decomposer_output raw = .ok out) :
    out.tasks ≠ [] ∧ out.steps ≠ [] := by
  obtain ⟨data0, hload, hnorm⟩ := normalize_ok_inv h
  obtain ⟨data, og1, og2, tasksVal, stepsVal, stepsList, ns, m, hunwrap, hog1,
    hog2, htasks, hstepsv, hiter, hres, hne, htasksout, hmap, hbf, hcov,
    hgoal⟩ := normalizeData_inv hnorm
  have hnsne : ns ≠ [] := by
    intro hc
    rw [hc] at hne
    simp at hne
  constructor
  · cases htv : tasksVal.truthy with
    | false =>
        rw [htv] at htasksout
        simp only [Bool.not_false, if_true] at htasksout
        obtain ⟨tl, hmaptl, htaskseq⟩ := synthAux_ok ns [] [] out.tasks htasksout
        have hlen : tl.length = ns.length := mapE_ok_length hmaptl
        cases htlc : tl with
        | nil =>
            rw [htlc] at hlen
            simp only [List.length_nil] at hlen
            exact absurd (List.eq_nil_of_length_eq_zero hlen.symm) hnsne
        | cons t0 ts =>
            rw [htlc] at htaskseq
            rw [htaskseq, synthPure_eq]
            simp [dedupPyEq, pyMem, mkSynthFrom]
    | true =>
        rw [htv] at htasksout
        simp only [Bool.not_true, Bool.false_eq_true, if_false] at htasksout
        exact pyIter_truthy_ne_nil htv htasksout
  · have hbf' : mapE (backfillOne out.tasks m) ns = .ok out.steps := hbf
    have hlen := mapE_ok_length hbf'
    intro hc
    rw [hc] at hlen
    simp at hlen
    exact hnsne (List.eq_nil_of_length_eq_zero hlen.symm)

/-- Witness for C10's amended theorem at the raw text `rawT9`. -/
theorem normalize_output_nonempty_witness :
    (NormOut.tasks
      ⟨.str "",
       [.obj [("id", .str "t9"),
              ("suggested_tools", .arr [.str "summarize_email"])]],
       [.obj [("order", .int 1), ("tool", .str "summarize_email"),
              ("task_id", .str "t9")]],
       .null⟩) ≠ [] ∧
    (NormOut.steps
      ⟨.str "",
       [.obj [("id", .str "t9"),
              ("suggested_tools", .arr [.str "summarize_email"])]],
       [.obj [("order", .int 1), ("tool", .str "summarize_email"),
              ("task_id", .str "t9")]],
       .null⟩) ≠ [] :=
  normalize_output_nonempty rawT9
    ⟨.str "",
     [.obj [("id", .str "t9"),
            ("suggested_tools", .arr [.str "summarize_email"])]],
     [.obj [("order", .int 1), ("tool", .str "summarize_email"),
            ("task_id", .str "t9")]],
     .null⟩ (by rfl)

end PlanCore
